import Mathlib

/-!
Verification of the `create-release-metadata` manifest-assembly and
signing-orchestration pipeline (`src/manifest.ts`, `src/file-utils.ts`).

The TypeScript source is shallowly embedded as follows.

* Pure filename heuristics (`extractArchFromFilename`,
  `extractVersionFromFilename`) become pure Lean functions; the JavaScript
  regexes are translated into explicit scanners with the same
  leftmost-match, greedy semantics.
* The effectful pipeline (`createReleaseMetadata`, `signFile`) becomes a
  deterministic interpreter over an explicit environment `Env` (file
  contents/hashes, mkdir/write outcomes, signer exit codes, clock).  Every
  observable action (console output, file reads, directory creation, file
  writes, subprocess spawns, the child's inherited diagnostic stream) is
  recorded in order in a trace of `Event`s, and the promise outcome is an
  `Except String` value.  The concurrent `Promise.all` over file
  inspections is linearised in input order; this does not affect any
  property stated here (no property depends on the relative order of the
  hashing events).
* JavaScript truthiness on strings (`if (password)`, `baseUrl ? _ : _`,
  `notes ? _ : _`, `!secretKeyPath`) is modelled by `strTruthy` /
  `optTruthy`; `??` on possibly-undefined values is `Option.getD` /
  matching on `Option`.
* `node:path.join` and `node:path.basename` are external library calls;
  they are modelled for the POSIX cases exercised here (`joinPath`
  normalises `""`/`"."` directories only, `basename` takes the component
  after the last slash, ignoring trailing slashes).
* YAML serialisation is out of scope per the design (off-the-shelf,
  assumed correct); the write event records the manifest value itself.
-/

/-! ## String utilities and JavaScript truthiness -/

/-- Truthiness of a JavaScript string: `""` is falsy, all others truthy. -/
def strTruthy (s : String) : Bool := decide (s ≠ "")

/-- Truthiness of a possibly-`undefined` JavaScript string. -/
def optTruthy : Option String → Bool
  | none => false
  | some s => strTruthy s

/-- Model of `node:path.basename` (POSIX): the component after the last
slash, with trailing slashes ignored. -/
def basename (p : String) : String :=
  let rev := p.data.reverse.dropWhile (fun c => c = '/')
  String.mk ((rev.takeWhile (fun c => c ≠ '/')).reverse)

/-- Model of `node:path.join dir file` for the shapes used by the
pipeline: `join "." f = f`, `join "" f = f`, otherwise `dir ++ "/" ++ f`
(general normalisation of `node:path.join` is not modelled). -/
def joinPath (dir file : String) : String :=
  if dir = "" || dir = "." then file else dir ++ "/" ++ file

/-- Does `pat` occur at the head of `l`? -/
def startsWithB : List Char → List Char → Bool
  | [], _ => true
  | _ :: _, [] => false
  | p :: ps, c :: cs => p == c && startsWithB ps cs

/-- Does `pat` occur contiguously anywhere in the second list? -/
def isInfixB (pat : List Char) : List Char → Bool
  | [] => pat.isEmpty
  | c :: cs => startsWithB pat (c :: cs) || isInfixB pat cs

/-- Lower-cased character data of a string (ASCII case folding, matching
the behaviour of the `/i` regex flag on the ASCII tokens involved). -/
def lowerData (s : String) : List Char := s.data.map Char.toLower

/-- Case-insensitive substring test: `tok` occurs in `hay`.  This is the
semantics of `/tok/i.exec(hay) !== null` for a literal ASCII token. -/
def containsCI (hay tok : String) : Bool := isInfixB (lowerData tok) (lowerData hay)

/-! ## File Inspector heuristics (`src/file-utils.ts`) -/

/-- Embeds `extractArchFromFilename` (`file-utils.ts` lines 47-61): four
case-insensitive alternation regexes tried in order, each alternation
matching iff one of its literal tokens occurs as a substring. -/
def extractArchFromFilename (filename : String) : Option String :=
  if containsCI filename "arm64" || containsCI filename "aarch64" then some "arm64"
  else if containsCI filename "x64" || containsCI filename "x86_64" || containsCI filename "amd64" then some "x64"
  else if containsCI filename "x86" || containsCI filename "ia32" || containsCI filename "i386" then some "ia32"
  else if containsCI filename "universal" then some "universal"
  else none

/-- Embeds `filename.replace(/\.[^.]+$/, "")`: the regex matches exactly
when the maximal trailing run of non-dot characters is non-empty and is
preceded by a dot; the match (that dot and everything after it) is
removed. -/
def stripExt (filename : String) : String :=
  let rev := filename.data.reverse
  let ext := rev.takeWhile (fun c => c ≠ '.')
  match rev.dropWhile (fun c => c ≠ '.') with
  | '.' :: r => if ext.isEmpty then filename else String.mk r.reverse
  | _ => filename

/-- Character class `[a-zA-Z0-9.]` of the prerelease part. -/
def isPreChar (c : Char) : Bool := c.isAlphanum || c == '.'

/-- Match `\d+\.\d+\.\d+(?:-[a-zA-Z0-9.]+)?` at the head of `s`, returning
the matched characters (= capture group 1).  Each `\d+` is a maximal digit
run (backtracking cannot help because `.`/`-` are not digits); the
optional prerelease part is taken greedily when a `-` is followed by at
least one `[a-zA-Z0-9.]` character. -/
def matchCoreFull (s : List Char) : Option (List Char) :=
  let d1 := s.takeWhile Char.isDigit
  if d1.isEmpty then none else
  match s.dropWhile Char.isDigit with
  | '.' :: r1 =>
    let d2 := r1.takeWhile Char.isDigit
    if d2.isEmpty then none else
    match r1.dropWhile Char.isDigit with
    | '.' :: r2 =>
      let d3 := r2.takeWhile Char.isDigit
      if d3.isEmpty then none else
      let pre : List Char :=
        match r2.dropWhile Char.isDigit with
        | '-' :: r3 =>
          let p := r3.takeWhile isPreChar
          if p.isEmpty then [] else '-' :: p
        | _ => []
      some (d1 ++ '.' :: (d2 ++ '.' :: (d3 ++ pre)))
    | _ => none
  | _ => none

/-- Match `\d+\.\d+\.\d+` (the fallback regex without prerelease part) at
the head of `s`. -/
def matchCoreSimple (s : List Char) : Option (List Char) :=
  let d1 := s.takeWhile Char.isDigit
  if d1.isEmpty then none else
  match s.dropWhile Char.isDigit with
  | '.' :: r1 =>
    let d2 := r1.takeWhile Char.isDigit
    if d2.isEmpty then none else
    match r1.dropWhile Char.isDigit with
    | '.' :: r2 =>
      let d3 := r2.takeWhile Char.isDigit
      if d3.isEmpty then none else
      some (d1 ++ '.' :: (d2 ++ '.' :: d3))
    | _ => none
  | _ => none

/-- Leftmost search for `v?(core)`: scan start positions left to right; at
each position an optional leading lowercase `v` is consumed greedily (a
`v` can never begin the core itself, which starts with a digit). -/
def findVersionAux (core : List Char → Option (List Char)) : List Char → Option (List Char)
  | [] => none
  | c :: rest =>
    match (if c == 'v' then core rest else core (c :: rest)) with
    | some g => some g
    | none => findVersionAux core rest

/-- Embeds `extractVersionFromFilename` (`file-utils.ts` lines 98-113):
strip the extension, try the full pattern with optional prerelease
suffix, then fall back to the bare `v?(\d+\.\d+\.\d+)` pattern. -/
def extractVersionFromFilename (filename : String) : Option String :=
  let nameWithoutExt := stripExt filename
  match findVersionAux matchCoreFull nameWithoutExt.data with
  | some g => some (String.mk g)
  | none => (findVersionAux matchCoreSimple nameWithoutExt.data).map String.mk

/-! ## Data model (`src/types.ts`) -/

/-- Embeds the `ReleaseFile` interface. -/
structure ReleaseFile where
  url : String
  sha512 : String
  size : Nat
  arch : Option String := none
deriving DecidableEq, Repr

/-- Embeds the `ReleaseManifest` interface; the optional auto-updater
compatibility fields are `path`/`sha512`/`size`. -/
structure ReleaseManifest where
  version : String
  updaterVersion : String
  schemaVersion : Nat
  releaseDate : String
  files : List ReleaseFile
  releaseNotes : Option String := none
  path : Option String := none
  sha512 : Option String := none
  size : Option Nat := none
deriving DecidableEq, Repr

/-- Embeds the `CreateMetadataOptions` interface; `none` is an absent
(`undefined`) property. -/
structure CreateMetadataOptions where
  distributables : List String
  secretKeyPath : String
  autoUpdaterCompat : Option Bool := none
  releaseNotes : Option String := none
  releaseNotesPath : Option String := none
  outputDir : Option String := none
  updaterVersion : Option String := none
  appVersion : Option String := none
  baseUrl : Option String := none
  platform : Option String := none
  password : Option String := none
  verbose : Option Bool := none

/-- Result of `getFileInfo`: base64 SHA-512 digest and byte size. -/
structure FileInfo where
  sha512 : String
  size : Nat
deriving DecidableEq, Repr

/-- Credential-supply strategy of a signer spawn: `explicitPw` is
`stdio: ["pipe", "inherit", "inherit"]`, `interactive` is
`stdio: "inherit"`. -/
inductive Strategy where
  | explicitPw : Strategy
  | interactive : Strategy
deriving DecidableEq, Repr

/-- Observable actions of the pipeline, in order of occurrence.
`spawnSign file key strat stdinData` records one invocation of
`minisign -S -s key -m file`; `stdinData` is what the orchestrator wrote
to the child's piped standard input before closing it (`none` when the
input stream was inherited and nothing was written).  `childOut` is the
child's own diagnostic text reaching the parent's terminal through the
inherited output/error streams. -/
inductive Event where
  | logMsg (s : String)
  | errMsg (s : String)
  | readInfo (p : String)
  | readNotes (p : String)
  | mkdirCall (d : String)
  | writeCall (p : String) (m : ReleaseManifest)
  | spawnSign (file : String) (key : String) (strat : Strategy) (stdinData : Option String)
  | childOut (s : String)
deriving DecidableEq, Repr

/-- Deterministic environment resolving every external interaction of one
run: `fileInfo` is hash+stat of a path (`none` = unreadable), `fileContent`
is `fs.readFile` (`none` = failure), `ioErr` the error text a failing
system call produces, `mkdirOk`/`writeOk` the outcomes of `fs.mkdir` /
`fs.writeFile`, `signExit` the exit code delivered by the signer's
`close` event for the given target file (`none` = abnormal termination,
i.e. `code === null`), `childDiag` the diagnostic text the child writes
to its inherited streams, `now` the ISO timestamp of `new Date()`. -/
structure Env where
  fileInfo : String → Option FileInfo
  fileContent : String → Option String
  ioErr : String → String
  mkdirOk : String → Bool
  writeOk : String → Bool
  signExit : String → Option Int
  childDiag : String → String
  now : String

/-! ## Signing Orchestrator (`signFile`, `manifest.ts` lines 20-95) -/

/-- The strategy `signFile` selects for a given `password` option:
explicit exactly when the password is present and non-empty
(JavaScript `if (password)`). -/
def stratOf (pw : Option String) : Strategy :=
  if optTruthy pw then Strategy.explicitPw else Strategy.interactive

/-- Exit-code text in the rejection message: the explicit branch uses
`String(code)` (so `null` prints as `"null"`); the interactive branch uses
`code ?? "unknown"`. -/
def codeText (pw : Option String) : Option Int → String
  | some c => toString c
  | none => if optTruthy pw then "null" else "unknown"

/-- Message of the inner rejection for a failed signer process. -/
def exitErr (pw : Option String) (code : Option Int) : String :=
  "minisign process exited with code " ++ codeText pw code

/-- Message of the error `signFile` itself throws on failure. -/
def signFailErr (pw : Option String) (code : Option Int) : String :=
  "Failed to sign file with minisign: " ++ exitErr pw code

/-- Embeds `signFile` (`manifest.ts` lines 20-95).  With a truthy password
the signer is spawned with piped standard input, the secret plus a newline
is written to it and the stream is closed; otherwise all three standard
streams are inherited.  Exit code 0 resolves; anything else (including a
`null` code) rejects, the catch block logs `Error signing file: <name>`
and forwards the inner message (always non-empty here) before throwing
`Failed to sign file with minisign: <inner message>`. -/
def signFile (env : Env) (filePath secretKeyPath : String) (password : Option String) :
    List Event × Except String Unit :=
  let bn := basename filePath
  let spawnEvs : List Event :=
    if optTruthy password then
      [Event.logMsg "Using provided password for key decryption",
       Event.spawnSign filePath secretKeyPath Strategy.explicitPw
         (some (password.getD "" ++ "\n")),
       Event.childOut (env.childDiag filePath)]
    else
      [Event.logMsg "You may need to enter password in the terminal if prompted",
       Event.spawnSign filePath secretKeyPath Strategy.interactive none,
       Event.childOut (env.childDiag filePath)]
  let evs := Event.logMsg ("Signing file: " ++ bn) :: spawnEvs
  if env.signExit filePath = some 0 then
    (evs ++ [Event.logMsg ("Successfully signed: " ++ bn)], Except.ok ())
  else
    (evs ++ [Event.errMsg ("Error signing file: " ++ bn),
             Event.errMsg (exitErr password (env.signExit filePath))],
     Except.error (signFailErr password (env.signExit filePath)))

/-! ## Pipeline Coordinator (`createReleaseMetadata`, `manifest.ts` lines 100-232) -/

/-- A verbose-gated log line (`log` helper, lines 119-123). -/
def vlog (verbose : Bool) (msg : String) : List Event :=
  if verbose then [Event.logMsg ("[ToDesktop Release] " ++ msg)] else []

/-- Embeds `readReleaseNotes` (`file-utils.ts` lines 66-79): a falsy
(absent or empty) path yields `undefined` without touching the file
system; otherwise the file is read, a failure being wrapped in a
descriptive error. -/
def readReleaseNotes (env : Env) : Option String → List Event × Except String (Option String)
  | none => ([], Except.ok none)
  | some p =>
    if strTruthy p then
      match env.fileContent p with
      | some c => ([Event.readNotes p], Except.ok (some c))
      | none => ([Event.readNotes p],
          Except.error ("Failed to read release notes from " ++ p ++ ": " ++ env.ioErr p))
    else ([], Except.ok none)

/-- Line 139: `releaseNotes ?? await readReleaseNotes(releaseNotesPath)` -
the explicit string short-circuits, the notes file is then never read. -/
def notesStep (env : Env) (o : CreateMetadataOptions) :
    List Event × Except String (Option String) :=
  match o.releaseNotes with
  | some s => ([], Except.ok (some s))
  | none => readReleaseNotes env o.releaseNotesPath

/-- URL of a file entry (lines 159-161): base URL joined with a slash when
the base URL is truthy, else the bare base name. -/
def urlOf (baseUrl fp : String) : String :=
  if strTruthy baseUrl then baseUrl ++ "/" ++ basename fp else basename fp

/-- One iteration of the `distributables.map` callback (lines 145-169)
with its verbose logs; `i` is the zero-based index, `total` the number of
distributables. -/
def mkEntry (env : Env) (verbose : Bool) (baseUrl : String) (total i : Nat) (fp : String) :
    List Event × Except String ReleaseFile :=
  let bn := basename fp
  let ev0 := vlog verbose
    ("Processing file " ++ toString (i + 1) ++ "/" ++ toString total ++ ": " ++ bn)
  match env.fileInfo fp with
  | none => (ev0 ++ [Event.readInfo fp], Except.error (env.ioErr fp))
  | some info =>
    let arch := extractArchFromFilename bn
    (ev0 ++ [Event.readInfo fp]
        ++ vlog verbose ("File size: " ++ toString info.size ++ " bytes")
        ++ vlog verbose ("Detected architecture: " ++ arch.getD "unknown"),
     Except.ok { url := urlOf baseUrl fp, sha512 := info.sha512, size := info.size,
                 arch := arch })

/-- The `Promise.all(distributables.map ...)` of lines 144-170, linearised
in input order (each inspection is independent; the first rejection
rejects the whole step). -/
def buildEntries (env : Env) (verbose : Bool) (baseUrl : String) (total : Nat) :
    Nat → List String → List Event × Except String (List ReleaseFile)
  | _, [] => ([], Except.ok [])
  | i, fp :: rest =>
    match mkEntry env verbose baseUrl total i fp with
    | (evs, Except.error e) => (evs, Except.error e)
    | (evs, Except.ok entry) =>
      match buildEntries env verbose baseUrl total (i + 1) rest with
      | (evs2, Except.error e) => (evs ++ evs2, Except.error e)
      | (evs2, Except.ok es) => (evs ++ evs2, Except.ok (entry :: es))

/-- Embeds the manifest construction of lines 181-197: the base document,
the truthiness-guarded `releaseNotes` spread, and the compatibility block
copied from the first file entry (and the first distributable's base
name) exactly when the flag is set and the entry list is non-empty. -/
def buildManifest (version updaterVersion now : String) (entries : List ReleaseFile)
    (notes : Option String) (autoUpdaterCompat : Bool) (firstBase : String) :
    ReleaseManifest :=
  let base : ReleaseManifest :=
    { version := version, updaterVersion := updaterVersion, schemaVersion := 1,
      releaseDate := now, files := entries,
      releaseNotes := if optTruthy notes then notes else none }
  if autoUpdaterCompat then
    match entries with
    | e0 :: _ =>
      { base with
        path := some firstBase
        sha512 := some e0.sha512
        size := some e0.size }
    | [] => base
  else base

/-- Stages `Validated` through `Persisted` of `createReleaseMetadata`
(lines 103-210): option defaults, validation, notes resolution, file
inspection, version derivation, manifest construction, directory
creation and manifest write.  Returns the manifest and its file path. -/
def preparePhase (env : Env) (o : CreateMetadataOptions) :
    List Event × Except String (ReleaseManifest × String) :=
  let verbose := o.verbose.getD false
  let outputDir := o.outputDir.getD "."
  let updaterVersion := o.updaterVersion.getD "1.0.0"
  let baseUrl := o.baseUrl.getD ""
  let platform := o.platform.getD "mac"
  let compat := o.autoUpdaterCompat.getD false
  let ev0 := vlog verbose "Starting release metadata creation..."
  if o.distributables = [] then (ev0, Except.error "No distributable files provided")
  else if !strTruthy o.secretKeyPath then (ev0, Except.error "Secret key path is required")
  else
    let ev1 := ev0 ++ vlog verbose
      ("Processing " ++ toString o.distributables.length ++ " distributable files")
    match notesStep env o with
    | (nev, Except.error e) => (ev1 ++ nev, Except.error e)
    | (nev, Except.ok notes) =>
      let ev2 := ev1 ++ nev
        ++ vlog verbose (if optTruthy notes then "Release notes loaded" else "No release notes provided")
        ++ vlog verbose "Calculating file hashes and metadata..."
      match buildEntries env verbose baseUrl o.distributables.length 0 o.distributables with
      | (eev, Except.error e) => (ev2 ++ eev, Except.error e)
      | (eev, Except.ok entries) =>
        let firstBase := basename (o.distributables.headD "")
        let version := o.appVersion.getD
          ((extractVersionFromFilename firstBase).getD "1.0.0")
        let manifest := buildManifest version updaterVersion env.now entries notes compat firstBase
        let ev3 := ev2 ++ eev
          ++ vlog verbose ("Using version: " ++ version)
          ++ vlog verbose "Creating manifest object..."
          ++ (if compat && decide (0 < entries.length) then
                vlog verbose "Adding auto-updater compatibility fields" else [])
          ++ vlog verbose "Converting manifest to YAML..."
          ++ vlog verbose ("Ensuring output directory exists: " ++ outputDir)
          ++ [Event.mkdirCall outputDir]
        if !env.mkdirOk outputDir then (ev3, Except.error (env.ioErr outputDir))
        else
          let manifestFile := joinPath outputDir ("latest-" ++ platform ++ ".yml")
          let ev4 := ev3 ++ vlog verbose ("Writing manifest to: " ++ manifestFile)
            ++ [Event.writeCall manifestFile manifest]
          if !env.writeOk manifestFile then (ev4, Except.error (env.ioErr manifestFile))
          else (ev4, Except.ok (manifest, manifestFile))

/-- Signing of every artifact, strictly in input order (lines 223-228);
the `await` in the `for` loop aborts the loop at the first rejection. -/
def signAll (env : Env) (key : String) (pw : Option String) (verbose : Bool) (total : Nat) :
    Nat → List String → List Event × Except String Unit
  | _, [] => ([], Except.ok ())
  | i, fp :: rest =>
    let ev0 := vlog verbose
      ("Signing file " ++ toString (i + 1) ++ "/" ++ toString total ++ ": " ++ basename fp)
    match signFile env fp key pw with
    | (evs, Except.error e) => (ev0 ++ evs, Except.error e)
    | (evs, Except.ok _) =>
      match signAll env key pw verbose total (i + 1) rest with
      | (evs2, r) => (ev0 ++ evs ++ evs2, r)

/-- Stages `ManifestSigned` and `ArtifactsSigned` (lines 212-228): sign
the manifest file, then each distributable in input order. -/
def signPhase (env : Env) (o : CreateMetadataOptions) (manifestFile : String) :
    List Event × Except String Unit :=
  let verbose := o.verbose.getD false
  let ev0 := vlog verbose "Signing manifest file..."
    ++ vlog verbose (if optTruthy o.password then "Password provided for key decryption"
        else "No password provided, you may need to enter it manually if prompted")
  match signFile env manifestFile o.secretKeyPath o.password with
  | (evs, Except.error e) => (ev0 ++ evs, Except.error e)
  | (evs, Except.ok _) =>
    let ev1 := vlog verbose "Signing distributable files..."
    match signAll env o.secretKeyPath o.password verbose o.distributables.length 0
        o.distributables with
    | (evs2, r) => (ev0 ++ evs ++ ev1 ++ evs2, r)

/-- Embeds `createReleaseMetadata` (`manifest.ts` lines 100-232) as the
composition of the preparation stages and the signing stages; a success
returns the manifest file path. -/
def createReleaseMetadata (env : Env) (o : CreateMetadataOptions) :
    List Event × Except String String :=
  match preparePhase env o with
  | (evs, Except.error e) => (evs, Except.error e)
  | (evs, Except.ok (_, manifestFile)) =>
    match signPhase env o manifestFile with
    | (sevs, Except.error e) => (evs ++ sevs, Except.error e)
    | (sevs, Except.ok _) =>
      (evs ++ sevs ++ vlog (o.verbose.getD false) "Release metadata creation completed successfully!",
       Except.ok manifestFile)

/-! ## Trace observers -/

/-- The target file of a spawn event. -/
def spawnFile : Event → Option String
  | Event.spawnSign f _ _ _ => some f
  | _ => none

/-- The files passed to signer subprocesses, in spawn order. -/
def signedFiles (tr : List Event) : List String := tr.filterMap spawnFile

/-- The manifest value of the first write event of a trace, if any. -/
def manifestOf (tr : List Event) : Option ReleaseManifest :=
  tr.findSome? fun e => match e with
    | Event.writeCall _ m => some m
    | _ => none

/-- Console-only events (no file-system or subprocess side effect). -/
def isConsole : Event → Bool
  | Event.logMsg _ => true
  | Event.errMsg _ => true
  | _ => false

/-- Is the event a read of the release-notes file? -/
def isReadNotes : Event → Bool
  | Event.readNotes _ => true
  | _ => false

/-- Expected standard-input payload of a spawn for a given password
option: the secret plus a newline under the explicit strategy, nothing
under the interactive strategy. -/
def stdinOf (pw : Option String) : Option String :=
  if optTruthy pw then some (pw.getD "" ++ "\n") else none

/-- The release notes the pipeline resolves for a run (line 139 together
with `readReleaseNotes`): the explicit string if present, else the notes
file content when a truthy path is supplied, else absent. -/
def resolvedNotes (env : Env) (o : CreateMetadataOptions) : Option String :=
  match o.releaseNotes with
  | some s => some s
  | none =>
    match o.releaseNotesPath with
    | some p => if strTruthy p then env.fileContent p else none
    | none => none

/-- The arguments of every signer spawn of a trace, in order: target file,
key file, strategy, and the data written to the child's standard input. -/
def spawnArgs (tr : List Event) : List (String × String × Strategy × Option String) :=
  tr.filterMap fun e => match e with
    | Event.spawnSign a b st d => some (a, b, st, d)
    | _ => none

/-- Environment in which every external interaction succeeds. -/
def envOkA : Env where
  fileInfo := fun _ => some { sha512 := "HASH", size := 3 }
  fileContent := fun _ => some "file notes"
  ioErr := fun _ => "io error"
  mkdirOk := fun _ => true
  writeOk := fun _ => true
  signExit := fun _ => some 0
  childDiag := fun _ => ""
  now := "2020-01-01T00:00:00.000Z"

/-- Environment in which signing `alpha.zip` exits with code 1 and every
other interaction succeeds. -/
def envFailA : Env where
  fileInfo := fun _ => some { sha512 := "HASH", size := 3 }
  fileContent := fun _ => none
  ioErr := fun _ => "io error"
  mkdirOk := fun _ => true
  writeOk := fun _ => true
  signExit := fun p => if p = "alpha.zip" then some 1 else some 0
  childDiag := fun _ => ""
  now := "2020-01-01T00:00:00.000Z"

/-- Environment in which signing `beta.dmg` exits with code 1 and every
other interaction succeeds. -/
def envFailB : Env where
  fileInfo := fun _ => some { sha512 := "HASH", size := 3 }
  fileContent := fun _ => none
  ioErr := fun _ => "io error"
  mkdirOk := fun _ => true
  writeOk := fun _ => true
  signExit := fun p => if p = "beta.dmg" then some 1 else some 0
  childDiag := fun _ => ""
  now := "2020-01-01T00:00:00.000Z"

/-- Options naming a single artifact `alpha.zip`. -/
def optsAlpha : CreateMetadataOptions where
  distributables := ["alpha.zip"]
  secretKeyPath := "sec.key"

/-- Options naming a single artifact `beta.dmg`. -/
def optsBeta : CreateMetadataOptions where
  distributables := ["beta.dmg"]
  secretKeyPath := "sec.key"

/-- Options with an empty artifact list. -/
def optsEmpty : CreateMetadataOptions where
  distributables := []
  secretKeyPath := "sec.key"

/-- Options with a single artifact and explicit release notes. -/
def optsNotes : CreateMetadataOptions where
  distributables := ["app-x64.zip"]
  secretKeyPath := "sec.key"
  releaseNotes := some "Release notes text"
  releaseNotesPath := some "notes.md"

/-- The spec's token groups for architecture detection, in priority
order; written from the spec's wording, to be compared with
`extractArchFromFilename` (which is translated from the code). -/
def archGroups : List (List String × String) :=
  [(["arm64", "aarch64"], "arm64"),
   (["x64", "x86_64", "amd64"], "x64"),
   (["x86", "ia32", "i386"], "ia32"),
   (["universal"], "universal")]

/-- Architecture tag per the spec's description: match case-insensitively
against the token groups, first matching group wins, no match means the
tag is absent. -/
def archFromGroups (filename : String) : Option String :=
  (archGroups.find? (fun g => g.1.any (fun tok => containsCI filename tok))).map
    (fun g => g.2)

/-! ## Trace algebra -/

theorem signedFiles_append (a b : List Event) :
    signedFiles (a ++ b) = signedFiles a ++ signedFiles b := by
  simp [signedFiles, List.filterMap_append]

theorem manifestOf_append (a b : List Event) :
    manifestOf (a ++ b) =
      (match manifestOf a with
       | some m => some m
       | none => manifestOf b) := by
  induction a with
  | nil => rfl
  | cons h t ih =>
    simp only [manifestOf, List.cons_append, List.findSome?] at *
    split <;> simp_all

theorem mem_vlog {e : Event} {v : Bool} {s : String} (h : e ∈ vlog v s) :
    e = Event.logMsg ("[ToDesktop Release] " ++ s) := by
  unfold vlog at h
  split at h <;> simp_all

theorem signedFiles_vlog (v : Bool) (s : String) : signedFiles (vlog v s) = [] := by
  unfold vlog signedFiles
  split <;> rfl

theorem manifestOf_vlog (v : Bool) (s : String) : manifestOf (vlog v s) = none := by
  unfold vlog manifestOf
  split <;> rfl

/-! ## Signing Orchestrator lemmas -/

theorem signFile_signedFiles (env : Env) (f k : String) (pw : Option String) :
    signedFiles (signFile env f k pw).1 = [f] := by
  unfold signFile signedFiles
  split <;> split <;> rfl

theorem mem_signFile {env : Env} {f k : String} {pw : Option String} {e : Event}
    (h : e ∈ (signFile env f k pw).1) :
    (∃ s, e = Event.logMsg s) ∨ (∃ s, e = Event.errMsg s) ∨
    e = Event.spawnSign f k (stratOf pw) (stdinOf pw) ∨ (∃ s, e = Event.childOut s) := by
  unfold signFile at h
  by_cases hpw : optTruthy pw = true <;>
    simp only [hpw, if_true, Bool.false_eq_true, if_false] at h <;>
    split at h <;>
    simp only [List.mem_cons, List.mem_append, List.mem_singleton, List.not_mem_nil,
      or_false] at h <;>
    simp_all [stratOf, stdinOf] <;>
    aesop

theorem manifestOf_signFile (env : Env) (f k : String) (pw : Option String) :
    manifestOf (signFile env f k pw).1 = none := by
  unfold manifestOf
  rw [List.findSome?_eq_none_iff]
  intro e he
  rcases mem_signFile he with ⟨s, rfl⟩ | ⟨s, rfl⟩ | rfl | ⟨s, rfl⟩ <;> rfl

theorem signFile_ok_iff (env : Env) (f k : String) (pw : Option String) :
    (signFile env f k pw).2 = Except.ok () ↔ env.signExit f = some 0 := by
  unfold signFile
  split <;> split <;> simp_all

theorem signFile_error (env : Env) (f k : String) (pw : Option String)
    (h : env.signExit f ≠ some 0) :
    (signFile env f k pw).2 = Except.error (signFailErr pw (env.signExit f)) ∧
    Event.errMsg ("Error signing file: " ++ basename f) ∈ (signFile env f k pw).1 ∧
    Event.errMsg (exitErr pw (env.signExit f)) ∈ (signFile env f k pw).1 ∧
    Event.childOut (env.childDiag f) ∈ (signFile env f k pw).1 := by
  simp only [signFile]
  rw [if_neg h]
  by_cases hpw : optTruthy pw = true <;> simp [hpw]

theorem signFile_ok_events (env : Env) (f k : String) (pw : Option String)
    (h : env.signExit f = some 0) :
    (signFile env f k pw).2 = Except.ok () ∧
    Event.childOut (env.childDiag f) ∈ (signFile env f k pw).1 := by
  simp only [signFile]
  rw [if_pos h]
  by_cases hpw : optTruthy pw = true <;> simp [hpw]

/-! ## Notes and inspection lemmas -/

theorem mem_notesStep {env : Env} {o : CreateMetadataOptions} {e : Event}
    (h : e ∈ (notesStep env o).1) :
    ∃ p, e = Event.readNotes p ∧ o.releaseNotes = none := by
  unfold notesStep at h
  cases hrn : o.releaseNotes with
  | some s => rw [hrn] at h; simp at h
  | none =>
    rw [hrn] at h
    cases hp : o.releaseNotesPath with
    | none => rw [hp] at h; simp [readReleaseNotes] at h
    | some p =>
      rw [hp] at h
      simp only [readReleaseNotes] at h
      split at h
      · split at h <;> (simp at h; exact ⟨p, by simp [h], rfl⟩)
      · simp at h

theorem manifestOf_notesStep (env : Env) (o : CreateMetadataOptions) :
    manifestOf (notesStep env o).1 = none := by
  unfold manifestOf
  rw [List.findSome?_eq_none_iff]
  intro e he
  obtain ⟨p, rfl, -⟩ := mem_notesStep he
  rfl

theorem signedFiles_notesStep (env : Env) (o : CreateMetadataOptions) :
    signedFiles (notesStep env o).1 = [] := by
  unfold signedFiles
  rw [List.filterMap_eq_nil_iff]
  intro e he
  obtain ⟨p, rfl, -⟩ := mem_notesStep he
  rfl

/-- Value produced by the notes-resolution step when it succeeds. -/
theorem notesStep_ok {env : Env} {o : CreateMetadataOptions} {notes : Option String}
    (h : (notesStep env o).2 = Except.ok notes) :
    notes = (match o.releaseNotes with
             | some s => some s
             | none => match o.releaseNotesPath with
               | some p => if strTruthy p then env.fileContent p else none
               | none => none) := by
  unfold notesStep at h
  cases hrn : o.releaseNotes with
  | some s => rw [hrn] at h; simp_all
  | none =>
    rw [hrn] at h
    cases hp : o.releaseNotesPath with
    | none => rw [hp] at h; simp [readReleaseNotes] at h; simp [h]
    | some p =>
      rw [hp] at h
      simp only [readReleaseNotes] at h
      split at h
      · split at h <;> simp_all
      · simp_all

theorem mem_mkEntry {env : Env} {v : Bool} {b : String} {t i : Nat} {fp : String} {e : Event}
    (h : e ∈ (mkEntry env v b t i fp).1) :
    (∃ s, e = Event.logMsg s) ∨ (∃ p, e = Event.readInfo p) := by
  unfold mkEntry at h
  split at h
  · simp only [List.mem_append, List.mem_singleton] at h
    rcases h with h | rfl
    · exact Or.inl ⟨_, mem_vlog h⟩
    · exact Or.inr ⟨_, rfl⟩
  · simp only [List.mem_append, List.mem_singleton] at h
    rcases h with ((h | rfl) | h) | h
    · exact Or.inl ⟨_, mem_vlog h⟩
    · exact Or.inr ⟨_, rfl⟩
    · exact Or.inl ⟨_, mem_vlog h⟩
    · exact Or.inl ⟨_, mem_vlog h⟩

theorem mkEntry_ok {env : Env} {v : Bool} {b : String} {t i : Nat} {fp : String}
    {evs : List Event} {en : ReleaseFile}
    (h : mkEntry env v b t i fp = (evs, Except.ok en)) :
    ∃ info, env.fileInfo fp = some info ∧
      en = { url := urlOf b fp, sha512 := info.sha512, size := info.size,
             arch := extractArchFromFilename (basename fp) } := by
  unfold mkEntry at h
  split at h
  · simp_all
  · refine ⟨_, by assumption, ?_⟩
    simp only [Prod.mk.injEq] at h
    exact (Except.ok.inj h.2).symm

theorem mem_buildEntries {env : Env} {v : Bool} {b : String} {t : Nat} :
    ∀ {i : Nat} {list : List String} {e : Event},
    e ∈ (buildEntries env v b t i list).1 →
    (∃ s, e = Event.logMsg s) ∨ (∃ p, e = Event.readInfo p) := by
  intro i list
  induction list generalizing i with
  | nil => intro e h; simp [buildEntries] at h
  | cons fp rest ih =>
    intro e h
    unfold buildEntries at h
    split at h
    · rename_i evs err heq
      exact mem_mkEntry (by rw [heq]; simpa using h)
    · rename_i evs1 entry heq
      split at h <;>
        (rename_i heq2
         simp only [List.mem_append] at h
         rcases h with h | h
         · exact mem_mkEntry (by rw [heq]; simpa using h)
         · exact ih (by rw [heq2]; simpa using h))

theorem manifestOf_buildEntries (env : Env) (v : Bool) (b : String) (t i : Nat)
    (list : List String) : manifestOf (buildEntries env v b t i list).1 = none := by
  unfold manifestOf
  rw [List.findSome?_eq_none_iff]
  intro e he
  rcases mem_buildEntries he with ⟨s, rfl⟩ | ⟨p, rfl⟩ <;> rfl

theorem signedFiles_buildEntries (env : Env) (v : Bool) (b : String) (t i : Nat)
    (list : List String) : signedFiles (buildEntries env v b t i list).1 = [] := by
  unfold signedFiles
  rw [List.filterMap_eq_nil_iff]
  intro e he
  rcases mem_buildEntries he with ⟨s, rfl⟩ | ⟨p, rfl⟩ <;> rfl

/-- A successful inspection step relates distributables to file entries
pointwise: each entry is built from that file's info, URL and detected
architecture. -/
theorem buildEntries_rel (env : Env) (v : Bool) (b : String) (t : Nat) :
    ∀ {i : Nat} {list : List String} {evs : List Event} {es : List ReleaseFile},
    buildEntries env v b t i list = (evs, Except.ok es) →
    List.Forall₂ (fun fp en => ∃ info, env.fileInfo fp = some info ∧
      en = { url := urlOf b fp, sha512 := info.sha512, size := info.size,
             arch := extractArchFromFilename (basename fp) }) list es := by
  intro i list
  induction list generalizing i with
  | nil =>
    intro evs es h
    simp only [buildEntries, Prod.mk.injEq] at h
    rw [← Except.ok.inj h.2]
    exact List.Forall₂.nil
  | cons fp rest ih =>
    intro evs es h
    unfold buildEntries at h
    split at h
    · simp_all
    · rename_i evs1 entry heq
      split at h
      · simp_all
      · rename_i evs2 es2 heq2
        simp only [Prod.mk.injEq] at h
        rw [← Except.ok.inj h.2]
        exact List.Forall₂.cons (mkEntry_ok heq) (ih heq2)

/-! ## Sequential signing lemmas -/

theorem mem_signAll {env : Env} {k : String} {pw : Option String} {v : Bool} {t : Nat} :
    ∀ {i : Nat} {list : List String} {e : Event},
    e ∈ (signAll env k pw v t i list).1 →
    (∃ s, e = Event.logMsg s) ∨ (∃ s, e = Event.errMsg s) ∨
    (∃ f, e = Event.spawnSign f k (stratOf pw) (stdinOf pw)) ∨ (∃ s, e = Event.childOut s) := by
  intro i list
  induction list generalizing i with
  | nil => intro e h; simp [signAll] at h
  | cons fp rest ih =>
    intro e h
    unfold signAll at h
    split at h
    · rename_i evs err heq
      simp only [List.mem_append] at h
      rcases h with h | h
      · exact Or.inl ⟨_, mem_vlog h⟩
      · rcases mem_signFile (f := fp) (by rw [heq]; simpa using h) with
          ⟨s, rfl⟩ | ⟨s, rfl⟩ | rfl | ⟨s, rfl⟩
        · exact Or.inl ⟨_, rfl⟩
        · exact Or.inr (Or.inl ⟨_, rfl⟩)
        · exact Or.inr (Or.inr (Or.inl ⟨_, rfl⟩))
        · exact Or.inr (Or.inr (Or.inr ⟨_, rfl⟩))
    · rename_i evs u heq
      split at h
      rename_i evs2 r heq2
      simp only [List.mem_append] at h
      rcases h with (h | h) | h
      · exact Or.inl ⟨_, mem_vlog h⟩
      · rcases mem_signFile (f := fp) (by rw [heq]; simpa using h) with
          ⟨s, rfl⟩ | ⟨s, rfl⟩ | rfl | ⟨s, rfl⟩
        · exact Or.inl ⟨_, rfl⟩
        · exact Or.inr (Or.inl ⟨_, rfl⟩)
        · exact Or.inr (Or.inr (Or.inl ⟨_, rfl⟩))
        · exact Or.inr (Or.inr (Or.inr ⟨_, rfl⟩))
      · exact ih (by rw [heq2]; simpa using h)

/-- Full characterisation of the artifact-signing loop: either every file
in the list was signed successfully in order, or the loop stopped at the
first file whose signer exited abnormally, signing exactly the successful
prefix plus that file and rejecting with the signing error. -/
theorem signAll_spec (env : Env) (k : String) (pw : Option String) (v : Bool) (t : Nat) :
    ∀ (i : Nat) (list : List String),
    ((signAll env k pw v t i list).2 = Except.ok () ∧
      signedFiles (signAll env k pw v t i list).1 = list ∧
      ∀ g ∈ list, env.signExit g = some 0) ∨
    (∃ pre f suff, list = pre ++ f :: suff ∧
      signedFiles (signAll env k pw v t i list).1 = pre ++ [f] ∧
      (∀ g ∈ pre, env.signExit g = some 0) ∧ env.signExit f ≠ some 0 ∧
      (signAll env k pw v t i list).2 = Except.error (signFailErr pw (env.signExit f)) ∧
      Event.errMsg ("Error signing file: " ++ basename f) ∈ (signAll env k pw v t i list).1) := by
  intro i list
  induction list generalizing i with
  | nil => exact Or.inl ⟨rfl, rfl, by simp⟩
  | cons fp rest ih =>
    by_cases hfp : env.signExit fp = some 0
    · rcases hsf : signFile env fp k pw with ⟨sevs, sr⟩
      have hsr : sr = Except.ok () := by
        have := (signFile_ok_iff env fp k pw).2 hfp
        rw [hsf] at this
        exact this
      subst hsr
      have hsigned : signedFiles sevs = [fp] := by
        have := signFile_signedFiles env fp k pw
        rw [hsf] at this
        exact this
      rcases ih (i + 1) with ⟨hok, hsf2, hall⟩ | ⟨pre, f, suff, hsplit, hsf2, hpre, hf, herr, hmem⟩
      · refine Or.inl ?_
        rcases hrec : signAll env k pw v t (i + 1) rest with ⟨evs2, r2⟩
        rw [hrec] at hok hsf2
        constructor
        · simp only [signAll, hsf, hrec]
          exact hok
        constructor
        · simp only [signAll, hsf, hrec, signedFiles_append, signedFiles_vlog, hsigned]
          simp [show signedFiles evs2 = rest from hsf2]
        · intro g hg
          rcases List.mem_cons.1 hg with rfl | hg
          · exact hfp
          · exact hall g hg
      · refine Or.inr ⟨fp :: pre, f, suff, by simp [hsplit], ?_, ?_, hf, ?_, ?_⟩
        · rcases hrec : signAll env k pw v t (i + 1) rest with ⟨evs2, r2⟩
          rw [hrec] at hsf2
          simp only [signAll, hsf, hrec, signedFiles_append, signedFiles_vlog, hsigned]
          simp [show signedFiles evs2 = pre ++ [f] from hsf2]
        · intro g hg
          rcases List.mem_cons.1 hg with rfl | hg
          · exact hfp
          · exact hpre g hg
        · rcases hrec : signAll env k pw v t (i + 1) rest with ⟨evs2, r2⟩
          rw [hrec] at herr
          simp only [signAll, hsf, hrec]
          exact herr
        · rcases hrec : signAll env k pw v t (i + 1) rest with ⟨evs2, r2⟩
          rw [hrec] at hmem
          simp only [signAll, hsf, hrec, List.mem_append]
          exact Or.inr hmem
    · obtain ⟨herr, hmem1, hmem2, hco⟩ := signFile_error env fp k pw hfp
      rcases hsf : signFile env fp k pw with ⟨sevs, sr⟩
      rw [hsf] at herr hmem1
      have herr2 : sr = Except.error (signFailErr pw (env.signExit fp)) := herr
      have hm1 : Event.errMsg ("Error signing file: " ++ basename fp) ∈ sevs := hmem1
      subst herr2
      have hsigned : signedFiles sevs = [fp] := by
        have := signFile_signedFiles env fp k pw
        rw [hsf] at this
        exact this
      refine Or.inr ⟨[], fp, rest, rfl, ?_, by simp, hfp, ?_, ?_⟩
      · simp [signAll, hsf, signedFiles_append, signedFiles_vlog, hsigned]
      · simp [signAll, hsf]
      · have : Event.errMsg ("Error signing file: " ++ basename fp) ∈
            vlog v ("Signing file " ++ toString (i + 1) ++ "/" ++ toString t ++ ": " ++ basename fp) ++ sevs :=
          List.mem_append_right _ hm1
        simpa [signAll, hsf] using this

theorem mem_signPhase {env : Env} {o : CreateMetadataOptions} {mf : String} {e : Event}
    (h : e ∈ (signPhase env o mf).1) :
    (∃ s, e = Event.logMsg s) ∨ (∃ s, e = Event.errMsg s) ∨
    (∃ f, e = Event.spawnSign f o.secretKeyPath (stratOf o.password) (stdinOf o.password)) ∨
    (∃ s, e = Event.childOut s) := by
  by_cases hpw : optTruthy o.password = true <;>
    simp only [signPhase, hpw, if_true, Bool.false_eq_true, if_false] at h
  all_goals
    split at h
    · rename_i evs err heq
      simp only [List.mem_append] at h
      rcases h with (h | h) | h
      · exact Or.inl ⟨_, mem_vlog h⟩
      · exact Or.inl ⟨_, mem_vlog h⟩
      · rcases mem_signFile (f := mf) (by rw [heq]; simpa using h) with
          ⟨s, rfl⟩ | ⟨s, rfl⟩ | rfl | ⟨s, rfl⟩
        · exact Or.inl ⟨_, rfl⟩
        · exact Or.inr (Or.inl ⟨_, rfl⟩)
        · exact Or.inr (Or.inr (Or.inl ⟨_, rfl⟩))
        · exact Or.inr (Or.inr (Or.inr ⟨_, rfl⟩))
    · rename_i evs u heq
      simp only [List.mem_append] at h
      rcases h with (((h | h) | h) | h) | h
      · exact Or.inl ⟨_, mem_vlog h⟩
      · exact Or.inl ⟨_, mem_vlog h⟩
      · rcases mem_signFile (f := mf) (by rw [heq]; simpa using h) with
          ⟨s, rfl⟩ | ⟨s, rfl⟩ | rfl | ⟨s, rfl⟩
        · exact Or.inl ⟨_, rfl⟩
        · exact Or.inr (Or.inl ⟨_, rfl⟩)
        · exact Or.inr (Or.inr (Or.inl ⟨_, rfl⟩))
        · exact Or.inr (Or.inr (Or.inr ⟨_, rfl⟩))
      · exact Or.inl ⟨_, mem_vlog h⟩
      · rcases mem_signAll h with
          ⟨s, rfl⟩ | ⟨s, rfl⟩ | ⟨f, rfl⟩ | ⟨s, rfl⟩
        · exact Or.inl ⟨_, rfl⟩
        · exact Or.inr (Or.inl ⟨_, rfl⟩)
        · exact Or.inr (Or.inr (Or.inl ⟨_, rfl⟩))
        · exact Or.inr (Or.inr (Or.inr ⟨_, rfl⟩))

theorem manifestOf_signPhase (env : Env) (o : CreateMetadataOptions) (mf : String) :
    manifestOf (signPhase env o mf).1 = none := by
  unfold manifestOf
  rw [List.findSome?_eq_none_iff]
  intro e he
  rcases mem_signPhase he with ⟨s, rfl⟩ | ⟨s, rfl⟩ | ⟨f, rfl⟩ | ⟨s, rfl⟩ <;> rfl

/-- Full characterisation of the signing stages over the combined list
`manifest file :: distributables`: either everything was signed in order,
or signing stopped at the first abnormal exit, having spawned the signer
exactly for the successful prefix plus the failing file. -/
theorem signPhase_spec (env : Env) (o : CreateMetadataOptions) (mf : String) :
    ((signPhase env o mf).2 = Except.ok () ∧
      signedFiles (signPhase env o mf).1 = mf :: o.distributables ∧
      ∀ g ∈ mf :: o.distributables, env.signExit g = some 0) ∨
    (∃ pre f suff, mf :: o.distributables = pre ++ f :: suff ∧
      signedFiles (signPhase env o mf).1 = pre ++ [f] ∧
      (∀ g ∈ pre, env.signExit g = some 0) ∧ env.signExit f ≠ some 0 ∧
      (signPhase env o mf).2 = Except.error (signFailErr o.password (env.signExit f)) ∧
      Event.errMsg ("Error signing file: " ++ basename f) ∈ (signPhase env o mf).1) := by
  by_cases hmf : env.signExit mf = some 0
  · rcases hsf : signFile env mf o.secretKeyPath o.password with ⟨sevs, sr⟩
    have hsr : sr = Except.ok () := by
      have := (signFile_ok_iff env mf o.secretKeyPath o.password).2 hmf
      rw [hsf] at this
      exact this
    subst hsr
    have hsigned : signedFiles sevs = [mf] := by
      have := signFile_signedFiles env mf o.secretKeyPath o.password
      rw [hsf] at this
      exact this
    rcases hrec : signAll env o.secretKeyPath o.password (o.verbose.getD false)
        o.distributables.length 0 o.distributables with ⟨evs2, r2⟩
    rcases signAll_spec env o.secretKeyPath o.password (o.verbose.getD false)
        o.distributables.length 0 o.distributables with
      ⟨hok, hsf2, hall⟩ | ⟨pre, f, suff, hsplit, hsf2, hpre, hf, herr, hmem⟩
    · rw [hrec] at hok hsf2
      refine Or.inl ⟨?_, ?_, ?_⟩
      · simp [signPhase, hsf, hrec, hok]
      · simp [signPhase, hsf, hrec, signedFiles_append, signedFiles_vlog, hsigned, hsf2]
      · intro g hg
        rcases List.mem_cons.1 hg with rfl | hg
        · exact hmf
        · exact hall g hg
    · rw [hrec] at hsf2 herr hmem
      refine Or.inr ⟨mf :: pre, f, suff, by simp [hsplit], ?_, ?_, hf, ?_, ?_⟩
      · simp [signPhase, hsf, hrec, signedFiles_append, signedFiles_vlog, hsigned, hsf2]
      · intro g hg
        rcases List.mem_cons.1 hg with rfl | hg
        · exact hmf
        · exact hpre g hg
      · simp [signPhase, hsf, hrec, herr]
      · have hm : Event.errMsg ("Error signing file: " ++ basename f) ∈ evs2 := hmem
        simp only [signPhase, hsf, hrec]
        exact List.mem_append_right _ hm
  · obtain ⟨herr, hmem1, hmem2, hco⟩ := signFile_error env mf o.secretKeyPath o.password hmf
    rcases hsf : signFile env mf o.secretKeyPath o.password with ⟨sevs, sr⟩
    rw [hsf] at herr hmem1
    have herr2 : sr = Except.error (signFailErr o.password (env.signExit mf)) := herr
    have hm1 : Event.errMsg ("Error signing file: " ++ basename mf) ∈ sevs := hmem1
    subst herr2
    have hsigned : signedFiles sevs = [mf] := by
      have := signFile_signedFiles env mf o.secretKeyPath o.password
      rw [hsf] at this
      exact this
    refine Or.inr ⟨[], mf, o.distributables, rfl, ?_, by simp, hmf, ?_, ?_⟩
    · simp [signPhase, hsf, signedFiles_append, signedFiles_vlog, hsigned]
    · simp [signPhase, hsf]
    · simp only [signPhase, hsf]
      exact List.mem_append_right _ hm1

/-! ## Preparation-phase lemmas -/

theorem mem_iteVlogNil {e : Event} {c : Prop} [Decidable c] {v : Bool} {s : String}
    (h : e ∈ (if c then vlog v s else [])) :
    e = Event.logMsg ("[ToDesktop Release] " ++ s) := by
  split at h
  · exact mem_vlog h
  · simp at h

theorem manifestOf_iteVlogNil {c : Prop} [Decidable c] {v : Bool} {s : String} :
    manifestOf (if c then vlog v s else []) = none := by
  split
  · exact manifestOf_vlog v s
  · rfl

theorem manifestOf_append_none {a b : List Event} (ha : manifestOf a = none) :
    manifestOf (a ++ b) = manifestOf b := by
  rw [manifestOf_append, ha]

theorem mem_vlog_iff {e : Event} {v : Bool} {s : String} :
    e ∈ vlog v s ↔ v = true ∧ e = Event.logMsg ("[ToDesktop Release] " ++ s) := by
  unfold vlog
  split <;> simp_all

theorem mem_iteVlogNil_iff {e : Event} {c : Prop} [Decidable c] {v : Bool} {s : String} :
    e ∈ (if c then vlog v s else []) ↔
      c ∧ v = true ∧ e = Event.logMsg ("[ToDesktop Release] " ++ s) := by
  split <;> simp_all [mem_vlog_iff]

theorem mem_preparePhase {env : Env} {o : CreateMetadataOptions} {e : Event}
    (h : e ∈ (preparePhase env o).1) :
    (∃ s, e = Event.logMsg s) ∨
    (∃ p, e = Event.readNotes p ∧ o.releaseNotes = none) ∨
    (∃ p, e = Event.readInfo p) ∨
    (∃ d, e = Event.mkdirCall d) ∨
    (∃ p m, e = Event.writeCall p m) := by
  by_cases hd : o.distributables = []
  · simp only [preparePhase, if_pos hd] at h
    exact Or.inl ⟨_, mem_vlog h⟩
  by_cases hk : (!strTruthy o.secretKeyPath) = true
  · simp only [preparePhase, if_neg hd, if_pos hk] at h
    exact Or.inl ⟨_, mem_vlog h⟩
  rcases hns : notesStep env o with ⟨nev, nr⟩
  cases nr with
  | error err =>
    simp only [preparePhase, if_neg hd, if_neg hk, hns, List.mem_append,
      List.mem_singleton, mem_vlog_iff, mem_iteVlogNil_iff] at h
    rcases h with (h | h) | h
    · exact Or.inl ⟨_, h.2⟩
    · exact Or.inl ⟨_, h.2⟩
    · obtain ⟨p, rfl, hrn⟩ := mem_notesStep (o := o) (by rw [hns]; simpa using h)
      exact Or.inr (Or.inl ⟨p, rfl, hrn⟩)
  | ok notes =>
    rcases hbe : buildEntries env (o.verbose.getD false) (o.baseUrl.getD "")
        o.distributables.length 0 o.distributables with ⟨eev, br⟩
    have hEev : ∀ e, e ∈ eev →
        (∃ s, e = Event.logMsg s) ∨ (∃ p, e = Event.readInfo p) := by
      intro e2 h2
      exact mem_buildEntries (by rw [hbe]; simpa using h2)
    have hNev : ∀ e, e ∈ nev → ∃ p, e = Event.readNotes p ∧ o.releaseNotes = none := by
      intro e2 h2
      exact mem_notesStep (o := o) (by rw [hns]; simpa using h2)
    cases br with
    | error err =>
      simp only [preparePhase, if_neg hd, if_neg hk, hns, hbe, List.mem_append,
        List.mem_singleton, mem_vlog_iff, mem_iteVlogNil_iff] at h
      rcases h with ((((h | h) | h) | h) | h) | h
      · exact Or.inl ⟨_, h.2⟩
      · exact Or.inl ⟨_, h.2⟩
      · obtain ⟨p, rfl, hrn⟩ := hNev e h
        exact Or.inr (Or.inl ⟨p, rfl, hrn⟩)
      · exact Or.inl ⟨_, h.2⟩
      · exact Or.inl ⟨_, h.2⟩
      · rcases hEev e h with ⟨s, rfl⟩ | ⟨p, rfl⟩
        · exact Or.inl ⟨_, rfl⟩
        · exact Or.inr (Or.inr (Or.inl ⟨_, rfl⟩))
    | ok entries =>
      by_cases hmk : (!env.mkdirOk (o.outputDir.getD ".")) = true
      · simp only [preparePhase, if_neg hd, if_neg hk, hns, hbe, if_pos hmk, List.mem_append,
          List.mem_singleton, mem_vlog_iff, mem_iteVlogNil_iff] at h
        rcases h with ((((((((((h | h) | h) | h) | h) | h) | h) | h) | h) | h) | h) | h
        · exact Or.inl ⟨_, h.2⟩
        · exact Or.inl ⟨_, h.2⟩
        · obtain ⟨p, rfl, hrn⟩ := hNev e h
          exact Or.inr (Or.inl ⟨p, rfl, hrn⟩)
        · exact Or.inl ⟨_, h.2⟩
        · exact Or.inl ⟨_, h.2⟩
        · rcases hEev e h with ⟨s, rfl⟩ | ⟨p, rfl⟩
          · exact Or.inl ⟨_, rfl⟩
          · exact Or.inr (Or.inr (Or.inl ⟨_, rfl⟩))
        · exact Or.inl ⟨_, h.2⟩
        · exact Or.inl ⟨_, h.2⟩
        · exact Or.inl ⟨_, h.2.2⟩
        · exact Or.inl ⟨_, h.2⟩
        · exact Or.inl ⟨_, h.2⟩
        · exact Or.inr (Or.inr (Or.inr (Or.inl ⟨_, h⟩)))
      · by_cases hwr : (!env.writeOk (joinPath (o.outputDir.getD ".")
            ("latest-" ++ o.platform.getD "mac" ++ ".yml"))) = true <;>
          [simp only [preparePhase, if_neg hd, if_neg hk, hns, hbe, if_neg hmk, if_pos hwr,
            List.mem_append, List.mem_singleton, mem_vlog_iff, mem_iteVlogNil_iff] at h;
           simp only [preparePhase, if_neg hd, if_neg hk, hns, hbe, if_neg hmk, if_neg hwr,
            List.mem_append, List.mem_singleton, mem_vlog_iff, mem_iteVlogNil_iff] at h] <;>
        · rcases h with ((((((((((((h | h) | h) | h) | h) | h) | h) | h) | h) | h) | h) | h) | h) | h
          · exact Or.inl ⟨_, h.2⟩
          · exact Or.inl ⟨_, h.2⟩
          · obtain ⟨p, rfl, hrn⟩ := hNev e h
            exact Or.inr (Or.inl ⟨p, rfl, hrn⟩)
          · exact Or.inl ⟨_, h.2⟩
          · exact Or.inl ⟨_, h.2⟩
          · rcases hEev e h with ⟨s, rfl⟩ | ⟨p, rfl⟩
            · exact Or.inl ⟨_, rfl⟩
            · exact Or.inr (Or.inr (Or.inl ⟨_, rfl⟩))
          · exact Or.inl ⟨_, h.2⟩
          · exact Or.inl ⟨_, h.2⟩
          · exact Or.inl ⟨_, h.2.2⟩
          · exact Or.inl ⟨_, h.2⟩
          · exact Or.inl ⟨_, h.2⟩
          · exact Or.inr (Or.inr (Or.inr (Or.inl ⟨_, h⟩)))
          · exact Or.inl ⟨_, h.2⟩
          · exact Or.inr (Or.inr (Or.inr (Or.inr ⟨_, _, h⟩)))

theorem signedFiles_preparePhase (env : Env) (o : CreateMetadataOptions) :
    signedFiles (preparePhase env o).1 = [] := by
  unfold signedFiles
  rw [List.filterMap_eq_nil_iff]
  intro e he
  rcases mem_preparePhase he with ⟨s, rfl⟩ | ⟨p, rfl, -⟩ | ⟨p, rfl⟩ | ⟨d, rfl⟩ | ⟨p, m, rfl⟩ <;> rfl

theorem prepare_no_readNotes {env : Env} {o : CreateMetadataOptions} {s : String}
    (hrn : o.releaseNotes = some s) :
    ∀ e ∈ (preparePhase env o).1, isReadNotes e = false := by
  intro e he
  rcases mem_preparePhase he with ⟨t, rfl⟩ | ⟨p, rfl, hn⟩ | ⟨p, rfl⟩ | ⟨d, rfl⟩ | ⟨p, m, rfl⟩
  · rfl
  · rw [hrn] at hn; cases hn
  · rfl
  · rfl
  · rfl

theorem manifestOf_writeSingleton (p : String) (m : ReleaseManifest) :
    manifestOf [Event.writeCall p m] = some m := rfl

theorem manifestOf_mkdirSingleton (d : String) :
    manifestOf [Event.mkdirCall d] = none := rfl

/-- Any manifest recorded by a write event of the preparation phase is the
one built by `buildManifest` from the resolved notes, the inspected
entries, the derived version and the first distributable's base name. -/
theorem prepare_manifest {env : Env} {o : CreateMetadataOptions} {m : ReleaseManifest}
    (hm : manifestOf (preparePhase env o).1 = some m) :
    ∃ nev eev notes entries,
      notesStep env o = (nev, Except.ok notes) ∧
      buildEntries env (o.verbose.getD false) (o.baseUrl.getD "")
        o.distributables.length 0 o.distributables = (eev, Except.ok entries) ∧
      o.distributables ≠ [] ∧
      m = buildManifest
        (o.appVersion.getD
          ((extractVersionFromFilename (basename (o.distributables.headD ""))).getD "1.0.0"))
        (o.updaterVersion.getD "1.0.0") env.now entries notes
        (o.autoUpdaterCompat.getD false) (basename (o.distributables.headD "")) := by
  by_cases hd : o.distributables = []
  · rw [show (preparePhase env o).1 = vlog (o.verbose.getD false)
        "Starting release metadata creation..." by simp [preparePhase, hd]] at hm
    rw [manifestOf_vlog] at hm
    cases hm
  by_cases hk : (!strTruthy o.secretKeyPath) = true
  · rw [show (preparePhase env o).1 = vlog (o.verbose.getD false)
        "Starting release metadata creation..." by simp [preparePhase, hd, hk]] at hm
    rw [manifestOf_vlog] at hm
    cases hm
  rcases hns : notesStep env o with ⟨nev, nr⟩
  have hnev : manifestOf nev = none := by
    have := manifestOf_notesStep env o
    rw [hns] at this
    exact this
  cases nr with
  | error err =>
    simp only [preparePhase, if_neg hd, if_neg hk, hns, manifestOf_append,
      manifestOf_vlog, hnev] at hm
    cases hm
  | ok notes =>
    rcases hbe : buildEntries env (o.verbose.getD false) (o.baseUrl.getD "")
        o.distributables.length 0 o.distributables with ⟨eev, br⟩
    have heev : manifestOf eev = none := by
      have := manifestOf_buildEntries env (o.verbose.getD false) (o.baseUrl.getD "")
        o.distributables.length 0 o.distributables
      rw [hbe] at this
      exact this
    cases br with
    | error err =>
      simp only [preparePhase, if_neg hd, if_neg hk, hns, hbe, manifestOf_append,
        manifestOf_vlog, hnev, heev] at hm
      cases hm
    | ok entries =>
      by_cases hmk : (!env.mkdirOk (o.outputDir.getD ".")) = true
      · simp only [preparePhase, if_neg hd, if_neg hk, hns, hbe, if_pos hmk,
          manifestOf_append, manifestOf_vlog, manifestOf_iteVlogNil,
          manifestOf_mkdirSingleton, hnev, heev] at hm
        cases hm
      · by_cases hwr : (!env.writeOk (joinPath (o.outputDir.getD ".")
            ("latest-" ++ o.platform.getD "mac" ++ ".yml"))) = true <;>
          [simp only [preparePhase, if_neg hd, if_neg hk, hns, hbe, if_neg hmk, if_pos hwr,
            manifestOf_append, manifestOf_vlog, manifestOf_iteVlogNil,
            manifestOf_mkdirSingleton, manifestOf_writeSingleton, hnev, heev] at hm;
           simp only [preparePhase, if_neg hd, if_neg hk, hns, hbe, if_neg hmk, if_neg hwr,
            manifestOf_append, manifestOf_vlog, manifestOf_iteVlogNil,
            manifestOf_mkdirSingleton, manifestOf_writeSingleton, hnev, heev] at hm] <;>
        · refine ⟨nev, eev, notes, entries, rfl, rfl, hd, ?_⟩
          exact (Option.some.inj hm).symm

/-- A successful preparation phase computed the manifest path by joining
the output directory with `latest-<platform>.yml`, recorded the manifest
in the write event, and performed the mkdir and write calls. -/
theorem prepare_ok {env : Env} {o : CreateMetadataOptions} {man : ReleaseManifest} {mf : String}
    (h : (preparePhase env o).2 = Except.ok (man, mf)) :
    mf = joinPath (o.outputDir.getD ".") ("latest-" ++ o.platform.getD "mac" ++ ".yml") ∧
    manifestOf (preparePhase env o).1 = some man ∧
    Event.mkdirCall (o.outputDir.getD ".") ∈ (preparePhase env o).1 ∧
    Event.writeCall mf man ∈ (preparePhase env o).1 := by
  by_cases hd : o.distributables = []
  · simp only [preparePhase, if_pos hd] at h
    exact absurd h (by simp)
  by_cases hk : (!strTruthy o.secretKeyPath) = true
  · simp only [preparePhase, if_neg hd, if_pos hk] at h
    exact absurd h (by simp)
  rcases hns : notesStep env o with ⟨nev, nr⟩
  cases nr with
  | error err =>
    simp only [preparePhase, if_neg hd, if_neg hk, hns] at h
    exact absurd h (by simp)
  | ok notes =>
    rcases hbe : buildEntries env (o.verbose.getD false) (o.baseUrl.getD "")
        o.distributables.length 0 o.distributables with ⟨eev, br⟩
    have hnev : manifestOf nev = none := by
      have := manifestOf_notesStep env o
      rw [hns] at this
      exact this
    have heev : manifestOf eev = none := by
      have := manifestOf_buildEntries env (o.verbose.getD false) (o.baseUrl.getD "")
        o.distributables.length 0 o.distributables
      rw [hbe] at this
      exact this
    cases br with
    | error err =>
      simp only [preparePhase, if_neg hd, if_neg hk, hns, hbe] at h
      exact absurd h (by simp)
    | ok entries =>
      by_cases hmk : (!env.mkdirOk (o.outputDir.getD ".")) = true
      · simp only [preparePhase, if_neg hd, if_neg hk, hns, hbe, if_pos hmk] at h
        exact absurd h (by simp)
      by_cases hwr : (!env.writeOk (joinPath (o.outputDir.getD ".")
          ("latest-" ++ o.platform.getD "mac" ++ ".yml"))) = true
      · simp only [preparePhase, if_neg hd, if_neg hk, hns, hbe, if_neg hmk, if_pos hwr] at h
        exact absurd h (by simp)
      · have h2 := h
        simp only [preparePhase, if_neg hd, if_neg hk, hns, hbe, if_neg hmk, if_neg hwr] at h2
        have hpair := Except.ok.inj h2
        have hman : man = buildManifest
            (o.appVersion.getD
              ((extractVersionFromFilename (basename (o.distributables.headD ""))).getD "1.0.0"))
            (o.updaterVersion.getD "1.0.0") env.now entries notes
            (o.autoUpdaterCompat.getD false) (basename (o.distributables.headD "")) :=
          congrArg Prod.fst hpair.symm
        have hmf : mf = joinPath (o.outputDir.getD ".")
            ("latest-" ++ o.platform.getD "mac" ++ ".yml") :=
          congrArg Prod.snd hpair.symm
        refine ⟨hmf, ?_, ?_, ?_⟩
        · simp only [preparePhase, if_neg hd, if_neg hk, hns, hbe, if_neg hmk, if_neg hwr,
            manifestOf_append, manifestOf_vlog, manifestOf_iteVlogNil,
            manifestOf_mkdirSingleton, manifestOf_writeSingleton, hnev, heev]
          rw [hman]
        · simp only [preparePhase, if_neg hd, if_neg hk, hns, hbe, if_neg hmk, if_neg hwr,
            List.mem_append, List.mem_singleton]
          simp
        · simp only [preparePhase, if_neg hd, if_neg hk, hns, hbe, if_neg hmk, if_neg hwr,
            List.mem_append, List.mem_singleton]
          rw [hman, hmf]
          simp

/-! ## Pipeline composition lemmas -/

theorem create_err_of_prepare {env : Env} {o : CreateMetadataOptions} {evs : List Event}
    {e : String} (hp : preparePhase env o = (evs, Except.error e)) :
    createReleaseMetadata env o = (evs, Except.error e) := by
  simp [createReleaseMetadata, hp]

theorem create_of_prepare_ok {env : Env} {o : CreateMetadataOptions} {pevs : List Event}
    {man : ReleaseManifest} {mf : String}
    (hp : preparePhase env o = (pevs, Except.ok (man, mf))) :
    (∃ e, (signPhase env o mf).2 = Except.error e ∧
       createReleaseMetadata env o = (pevs ++ (signPhase env o mf).1, Except.error e)) ∨
    ((signPhase env o mf).2 = Except.ok () ∧
       createReleaseMetadata env o = (pevs ++ (signPhase env o mf).1 ++
         vlog (o.verbose.getD false) "Release metadata creation completed successfully!",
         Except.ok mf)) := by
  rcases hsp : signPhase env o mf with ⟨sevs, sr⟩
  cases sr with
  | error e =>
    left
    exact ⟨e, rfl, by simp [createReleaseMetadata, hp, hsp]⟩
  | ok u =>
    right
    exact ⟨rfl, by simp [createReleaseMetadata, hp, hsp]⟩

theorem create_ok_inv {env : Env} {o : CreateMetadataOptions} {p : String}
    (h : (createReleaseMetadata env o).2 = Except.ok p) :
    ∃ pevs man, preparePhase env o = (pevs, Except.ok (man, p)) ∧
      (signPhase env o p).2 = Except.ok () ∧
      (createReleaseMetadata env o).1 = pevs ++ (signPhase env o p).1 ++
        vlog (o.verbose.getD false) "Release metadata creation completed successfully!" := by
  rcases hp : preparePhase env o with ⟨pevs, pr⟩
  cases pr with
  | error e =>
    rw [create_err_of_prepare hp] at h
    exact absurd h (by simp)
  | ok pair =>
    rcases pair with ⟨man, mf⟩
    rcases create_of_prepare_ok hp with ⟨e, hse, hc⟩ | ⟨hse, hc⟩
    · rw [hc] at h
      exact absurd h (by simp)
    · rw [hc] at h
      have hmfp : mf = p := by simpa using h
      subst hmfp
      exact ⟨pevs, man, rfl, hse, by rw [hc]⟩

/-! ## Manifest Builder lemmas -/

theorem buildManifest_files (v u n : String) (entries : List ReleaseFile)
    (notes : Option String) (c : Bool) (fb : String) :
    (buildManifest v u n entries notes c fb).files = entries := by
  cases c <;> cases entries <;> simp [buildManifest]

theorem buildManifest_notes (v u n : String) (entries : List ReleaseFile)
    (notes : Option String) (c : Bool) (fb : String) :
    (buildManifest v u n entries notes c fb).releaseNotes =
      (if optTruthy notes then notes else none) := by
  cases c <;> cases entries <;> simp [buildManifest]

theorem buildManifest_compat (v u n : String) (e0 : ReleaseFile) (es : List ReleaseFile)
    (notes : Option String) (fb : String) :
    (buildManifest v u n (e0 :: es) notes true fb).path = some fb ∧
    (buildManifest v u n (e0 :: es) notes true fb).sha512 = some e0.sha512 ∧
    (buildManifest v u n (e0 :: es) notes true fb).size = some e0.size := by
  exact ⟨rfl, rfl, rfl⟩

theorem buildManifest_nocompat (v u n : String) (entries : List ReleaseFile)
    (notes : Option String) (fb : String) :
    (buildManifest v u n entries notes false fb).path = none ∧
    (buildManifest v u n entries notes false fb).sha512 = none ∧
    (buildManifest v u n entries notes false fb).size = none := by
  exact ⟨rfl, rfl, rfl⟩

/-- Any manifest written during a full run was written by the preparation
phase (the signing phase writes nothing). -/
theorem manifestOf_create {env : Env} {o : CreateMetadataOptions} {m : ReleaseManifest}
    (hm : manifestOf (createReleaseMetadata env o).1 = some m) :
    manifestOf (preparePhase env o).1 = some m := by
  rcases hp : preparePhase env o with ⟨pevs, pr⟩
  cases pr with
  | error e =>
    rw [create_err_of_prepare hp] at hm
    exact hm
  | ok pair =>
    rcases pair with ⟨man, mf⟩
    rcases create_of_prepare_ok hp with ⟨e2, hse, hc⟩ | ⟨hse, hc⟩ <;>
      rw [hc] at hm <;>
      simp only [manifestOf_append, manifestOf_signPhase, manifestOf_vlog] at hm <;>
      rcases hq : manifestOf pevs with _ | x <;>
      rw [hq] at hm <;>
      simp at hm <;>
      simp [hq, hm]

/-! ## Claim theorems -/

/-- C1: in every run whose manifest was constructed and written, if the
compatibility flag was set the manifest's top-level `sha512` and `size`
exactly mirror the first entry of the `files` list and its `path` is the
first artifact's base name (which is that first entry's `url` whenever no
base URL was supplied); if the flag was unset all three top-level fields
are absent. -/
theorem compat_block_mirrors_first_entry (env : Env) (o : CreateMetadataOptions)
    (m : ReleaseManifest) (hm : manifestOf (createReleaseMetadata env o).1 = some m) :
    (o.autoUpdaterCompat.getD false = true →
      ∃ f0 fs, m.files = f0 :: fs ∧
        m.sha512 = some f0.sha512 ∧ m.size = some f0.size ∧
        m.path = some (basename (o.distributables.headD "")) ∧
        (o.baseUrl.getD "" = "" → m.path = some f0.url)) ∧
    (o.autoUpdaterCompat.getD false = false →
      m.path = none ∧ m.sha512 = none ∧ m.size = none) := by
  obtain ⟨nev, eev, notes, entries, hns, hbe, hd, hmeq⟩ :=
    prepare_manifest (manifestOf_create hm)
  have hrel := buildEntries_rel env (o.verbose.getD false) (o.baseUrl.getD "")
      o.distributables.length hbe
  constructor
  · intro hc
    rw [hc] at hmeq
    cases hds : o.distributables with
    | nil => exact absurd hds hd
    | cons d0 ds =>
      rw [hds] at hrel
      cases hrel with
      | cons h0 hrest =>
        obtain ⟨info, hinfo, he0⟩ := h0
        have hfb : basename (o.distributables.headD "") = basename d0 := by
          rw [hds]
          rfl
        rw [hmeq]
        refine ⟨_, _, buildManifest_files .., (buildManifest_compat ..).2.1,
          (buildManifest_compat ..).2.2, ?_, ?_⟩
        · rw [(buildManifest_compat ..).1, hfb]
          rfl
        · intro hb
          rw [(buildManifest_compat ..).1, he0, hfb]
          simp [urlOf, hb, strTruthy]
  · intro hc
    rw [hc] at hmeq
    rw [hmeq]
    exact buildManifest_nocompat ..

/-- C1 instance: concrete compatibility-mode run, exercising the theorem's
hypotheses at an explicit input. -/
theorem compat_block_mirrors_first_entry_inst :
    ({ version := "1.0.0", updaterVersion := "1.0.0", schemaVersion := 1,
       releaseDate := "2020-01-01T00:00:00.000Z",
       files := [{ url := "app-arm64.zip", sha512 := "HASH", size := 3,
                   arch := some "arm64" }],
       path := some "app-arm64.zip", sha512 := some "HASH",
       size := some 3 } : ReleaseManifest).sha512 = some "HASH" ∧
    (∃ f0 fs,
      ({ version := "1.0.0", updaterVersion := "1.0.0", schemaVersion := 1,
         releaseDate := "2020-01-01T00:00:00.000Z",
         files := [{ url := "app-arm64.zip", sha512 := "HASH", size := 3,
                     arch := some "arm64" }],
         path := some "app-arm64.zip", sha512 := some "HASH",
         size := some 3 } : ReleaseManifest).files = f0 :: fs ∧
      ({ version := "1.0.0", updaterVersion := "1.0.0", schemaVersion := 1,
         releaseDate := "2020-01-01T00:00:00.000Z",
         files := [{ url := "app-arm64.zip", sha512 := "HASH", size := 3,
                     arch := some "arm64" }],
         path := some "app-arm64.zip", sha512 := some "HASH",
         size := some 3 } : ReleaseManifest).sha512 = some f0.sha512 ∧
      ({ version := "1.0.0", updaterVersion := "1.0.0", schemaVersion := 1,
         releaseDate := "2020-01-01T00:00:00.000Z",
         files := [{ url := "app-arm64.zip", sha512 := "HASH", size := 3,
                     arch := some "arm64" }],
         path := some "app-arm64.zip", sha512 := some "HASH",
         size := some 3 } : ReleaseManifest).size = some f0.size ∧
      ({ version := "1.0.0", updaterVersion := "1.0.0", schemaVersion := 1,
         releaseDate := "2020-01-01T00:00:00.000Z",
         files := [{ url := "app-arm64.zip", sha512 := "HASH", size := 3,
                     arch := some "arm64" }],
         path := some "app-arm64.zip", sha512 := some "HASH",
         size := some 3 } : ReleaseManifest).path =
          some (basename ((["app-arm64.zip"] : List String).headD "")) ∧
      ((("" : String) = "") →
        ({ version := "1.0.0", updaterVersion := "1.0.0", schemaVersion := 1,
           releaseDate := "2020-01-01T00:00:00.000Z",
           files := [{ url := "app-arm64.zip", sha512 := "HASH", size := 3,
                       arch := some "arm64" }],
           path := some "app-arm64.zip", sha512 := some "HASH",
           size := some 3 } : ReleaseManifest).path = some f0.url)) := by
  constructor
  · rfl
  · exact (compat_block_mirrors_first_entry
      { fileInfo := fun _ => some { sha512 := "HASH", size := 3 },
        fileContent := fun _ => none, ioErr := fun _ => "io error",
        mkdirOk := fun _ => true, writeOk := fun _ => true,
        signExit := fun _ => some 0, childDiag := fun _ => "",
        now := "2020-01-01T00:00:00.000Z" }
      { distributables := ["app-arm64.zip"], secretKeyPath := "sec.key",
        autoUpdaterCompat := some true }
      _ rfl).1 rfl

/-- C8: in every run whose manifest was constructed, each file entry's
`url` is the base URL joined with the artifact's base name when a base URL
is supplied (truthy), else the base name alone - pointwise along the
distributables in input order. -/
theorem file_entry_url_spec (env : Env) (o : CreateMetadataOptions)
    (m : ReleaseManifest) (hm : manifestOf (createReleaseMetadata env o).1 = some m) :
    List.Forall₂ (fun fp en => en.url = urlOf (o.baseUrl.getD "") fp)
      o.distributables m.files := by
  obtain ⟨nev, eev, notes, entries, hns, hbe, hd, hmeq⟩ :=
    prepare_manifest (manifestOf_create hm)
  rw [hmeq, buildManifest_files]
  refine (buildEntries_rel env (o.verbose.getD false) (o.baseUrl.getD "")
      o.distributables.length hbe).imp ?_
  rintro fp en ⟨info, -, rfl⟩
  rfl

/-- C8 instance: a concrete run with a base URL, exercising the theorem's
hypothesis at an explicit input. -/
theorem file_entry_url_spec_inst :
    List.Forall₂
      (fun fp en => ReleaseFile.url en =
        urlOf (({ distributables := ["app-arm64.zip"], secretKeyPath := "sec.key",
                  baseUrl := some "https://cdn.example" } :
                  CreateMetadataOptions).baseUrl.getD "") fp)
      ["app-arm64.zip"]
      [{ url := "https://cdn.example/app-arm64.zip", sha512 := "HASH", size := 3,
         arch := some "arm64" }] :=
  file_entry_url_spec envOkA
    { distributables := ["app-arm64.zip"], secretKeyPath := "sec.key",
      baseUrl := some "https://cdn.example" }
    _ rfl

/-- C9: the explicit release-notes string takes precedence and suppresses
reading the notes file entirely; whenever a manifest was constructed, its
`releaseNotes` field is the resolved notes exactly when these are
non-empty (truthy), and absent otherwise. -/
theorem release_notes_resolution (env : Env) (o : CreateMetadataOptions) :
    (∀ s, o.releaseNotes = some s →
      ∀ e ∈ (createReleaseMetadata env o).1, isReadNotes e = false) ∧
    (∀ m, manifestOf (createReleaseMetadata env o).1 = some m →
      m.releaseNotes =
        (if optTruthy (resolvedNotes env o) then resolvedNotes env o else none)) ∧
    (∀ m, manifestOf (createReleaseMetadata env o).1 = some m →
      (m.releaseNotes ≠ none ↔ optTruthy (resolvedNotes env o) = true)) := by
  have hval : ∀ m, manifestOf (createReleaseMetadata env o).1 = some m →
      m.releaseNotes =
        (if optTruthy (resolvedNotes env o) then resolvedNotes env o else none) := by
    intro m hm
    obtain ⟨nev, eev, notes, entries, hns, hbe, hd, hmeq⟩ :=
      prepare_manifest (manifestOf_create hm)
    have hnv : notes = resolvedNotes env o := notesStep_ok (by rw [hns])
    rw [hmeq, buildManifest_notes, hnv]
  refine ⟨?_, hval, ?_⟩
  · intro s hrn e he
    rcases hp : preparePhase env o with ⟨pevs, pr⟩
    cases pr with
    | error e2 =>
      rw [create_err_of_prepare hp] at he
      exact prepare_no_readNotes hrn e (by rw [hp]; simpa using he)
    | ok pair =>
      rcases pair with ⟨man, mf⟩
      rcases create_of_prepare_ok hp with ⟨e2, hse, hc⟩ | ⟨hse, hc⟩ <;>
        rw [hc] at he <;>
        simp only [List.mem_append] at he
      · rcases he with he | he
        · exact prepare_no_readNotes hrn e (by rw [hp]; simpa using he)
        · rcases mem_signPhase he with ⟨t, rfl⟩ | ⟨t, rfl⟩ | ⟨f, rfl⟩ | ⟨t, rfl⟩ <;> rfl
      · rcases he with (he | he) | he
        · exact prepare_no_readNotes hrn e (by rw [hp]; simpa using he)
        · rcases mem_signPhase he with ⟨t, rfl⟩ | ⟨t, rfl⟩ | ⟨f, rfl⟩ | ⟨t, rfl⟩ <;> rfl
        · rw [mem_vlog he]
          rfl
  · intro m hm
    rw [hval m hm]
    cases hn : resolvedNotes env o with
    | none => simp [optTruthy]
    | some s => by_cases hs : s = "" <;> simp [optTruthy, strTruthy, hs]

/-- C9 instance: with an explicit notes string supplied alongside a notes
file, the manifest carries the explicit string and the notes file is not
read. -/
theorem release_notes_resolution_inst :
    (∀ e ∈ (createReleaseMetadata envOkA optsNotes).1, isReadNotes e = false) ∧
    ({ version := "1.0.0", updaterVersion := "1.0.0", schemaVersion := 1,
       releaseDate := "2020-01-01T00:00:00.000Z",
       files := [{ url := "app-x64.zip", sha512 := "HASH", size := 3,
                   arch := some "x64" }],
       releaseNotes := some "Release notes text" } : ReleaseManifest).releaseNotes =
      (if optTruthy (resolvedNotes envOkA optsNotes) then resolvedNotes envOkA optsNotes
       else none) :=
  ⟨(release_notes_resolution envOkA optsNotes).1 "Release notes text" rfl,
   (release_notes_resolution envOkA optsNotes).2.1 _ rfl⟩

/-- C4: an empty distributables list or an empty/absent secret-key path
rejects with the corresponding descriptive message, and the whole trace of
such a run consists of console output only - no file read, no directory
creation, no file write, no subprocess. -/
theorem validation_precedes_io (env : Env) (o : CreateMetadataOptions) :
    (o.distributables = [] →
      createReleaseMetadata env o =
        (vlog (o.verbose.getD false) "Starting release metadata creation...",
         Except.error "No distributable files provided")) ∧
    (o.distributables ≠ [] → o.secretKeyPath = "" →
      createReleaseMetadata env o =
        (vlog (o.verbose.getD false) "Starting release metadata creation...",
         Except.error "Secret key path is required")) ∧
    ((o.distributables = [] ∨ o.secretKeyPath = "") →
      ∀ e ∈ (createReleaseMetadata env o).1, isConsole e = true) := by
  have h1 : o.distributables = [] →
      createReleaseMetadata env o =
        (vlog (o.verbose.getD false) "Starting release metadata creation...",
         Except.error "No distributable files provided") := by
    intro hd
    exact create_err_of_prepare (by simp [preparePhase, hd])
  have h2 : o.distributables ≠ [] → o.secretKeyPath = "" →
      createReleaseMetadata env o =
        (vlog (o.verbose.getD false) "Starting release metadata creation...",
         Except.error "Secret key path is required") := by
    intro hd hk
    exact create_err_of_prepare (by simp [preparePhase, hd, hk, strTruthy])
  refine ⟨h1, h2, ?_⟩
  intro hor e he
  have htr : (createReleaseMetadata env o).1 =
      vlog (o.verbose.getD false) "Starting release metadata creation..." := by
    by_cases hd : o.distributables = []
    · rw [h1 hd]
    · rcases hor with hd2 | hk
      · exact absurd hd2 hd
      · rw [h2 hd hk]
  rw [htr] at he
  rw [mem_vlog he]
  rfl

/-- C4 instance: the empty-artifact-list run rejects before any file
system access. -/
theorem validation_precedes_io_inst :
    createReleaseMetadata envOkA optsEmpty =
      ([], Except.error "No distributable files provided") ∧
    (∀ e ∈ (createReleaseMetadata envOkA optsEmpty).1, isConsole e = true) :=
  ⟨(validation_precedes_io envOkA optsEmpty).1 rfl,
   (validation_precedes_io envOkA optsEmpty).2.2 (Or.inl rfl)⟩

/-- C5: every successful run returns the path `latest-<platform>.yml`
joined onto the output directory, created that directory, wrote the
manifest there before any signing, and spawned the signer once for the
manifest file first and then once per artifact strictly in input order -
all spawns using the key file and the credential strategy selected by the
password option. -/
theorem successful_run_shape (env : Env) (o : CreateMetadataOptions) (p : String)
    (h : (createReleaseMetadata env o).2 = Except.ok p) :
    p = joinPath (o.outputDir.getD ".") ("latest-" ++ o.platform.getD "mac" ++ ".yml") ∧
    Event.mkdirCall (o.outputDir.getD ".") ∈ (createReleaseMetadata env o).1 ∧
    (∃ m, Event.writeCall p m ∈ (createReleaseMetadata env o).1 ∧
      manifestOf (createReleaseMetadata env o).1 = some m) ∧
    signedFiles (createReleaseMetadata env o).1 = p :: o.distributables ∧
    (∃ tr1 tr2, (createReleaseMetadata env o).1 = tr1 ++ tr2 ∧
      (∃ m, Event.writeCall p m ∈ tr1) ∧ signedFiles tr1 = [] ∧
      signedFiles tr2 = p :: o.distributables) ∧
    (∀ f k st d, Event.spawnSign f k st d ∈ (createReleaseMetadata env o).1 →
      k = o.secretKeyPath ∧ st = stratOf o.password ∧ d = stdinOf o.password) := by
  obtain ⟨pevs, man, hp, hse, htr⟩ := create_ok_inv h
  obtain ⟨hmf, hman, hmk, hwr⟩ :=
    prepare_ok (show (preparePhase env o).2 = Except.ok (man, p) by rw [hp])
  rw [hp] at hman hmk hwr
  have hps : signedFiles pevs = [] := by
    have := signedFiles_preparePhase env o
    rw [hp] at this
    exact this
  rcases signPhase_spec env o p with ⟨hok, hsf, hall⟩ |
    ⟨pre, f, suff, hsplit, hsf, hpre, hfx, herr, hmem⟩
  swap
  · exact absurd (hse.symm.trans herr) (by simp)
  refine ⟨hmf, ?_, ?_, ?_, ?_, ?_⟩
  · rw [htr]
    exact List.mem_append_left _ (List.mem_append_left _ hmk)
  · refine ⟨man, ?_, ?_⟩
    · rw [htr]
      exact List.mem_append_left _ (List.mem_append_left _ hwr)
    · rw [htr]
      simp [manifestOf_append, hman]
  · rw [htr]
    simp [signedFiles_append, hps, signedFiles_vlog, hsf]
  · refine ⟨pevs, (signPhase env o p).1 ++
      vlog (o.verbose.getD false) "Release metadata creation completed successfully!",
      by rw [htr, List.append_assoc], ⟨man, hwr⟩, hps, ?_⟩
    simp [signedFiles_append, hsf, signedFiles_vlog]
  · intro f k st d hmem2
    rw [htr] at hmem2
    simp only [List.mem_append] at hmem2
    rcases hmem2 with (hmem2 | hmem2) | hmem2
    · rcases mem_preparePhase (by rw [hp]; simpa using hmem2) with
        ⟨s, hh⟩ | ⟨p2, hh, -⟩ | ⟨p2, hh⟩ | ⟨d2, hh⟩ | ⟨p2, m2, hh⟩ <;> simp at hh
    · rcases mem_signPhase hmem2 with ⟨s, hh⟩ | ⟨s, hh⟩ | ⟨f2, hh⟩ | ⟨s, hh⟩
      · simp at hh
      · simp at hh
      · simp only [Event.spawnSign.injEq] at hh
        exact hh.2
      · simp at hh
    · have := mem_vlog hmem2
      simp at this

/-- C5 instance: one artifact, all interactions succeeding - the returned
path is `latest-mac.yml` and exactly two signer spawns occur, manifest
first, artifact second. -/
theorem successful_run_shape_inst :
    ("latest-mac.yml" : String) =
      joinPath (optsAlpha.outputDir.getD ".")
        ("latest-" ++ optsAlpha.platform.getD "mac" ++ ".yml") ∧
    signedFiles (createReleaseMetadata envOkA optsAlpha).1 =
      "latest-mac.yml" :: optsAlpha.distributables :=
  ⟨(successful_run_shape envOkA optsAlpha "latest-mac.yml" rfl).1,
   (successful_run_shape envOkA optsAlpha "latest-mac.yml" rfl).2.2.2.1⟩

/-- C2 (amended): when a spawned signer exits abnormally, the run rejects
with the stage-identifying message (`Failed to sign file with minisign:
minisign process exited with code <c>`), the failing file's name appears
in the console-error diagnostics emitted at the failure (`Error signing
file: <name>`), the failing file is the last one signed after an
all-successful prefix, and the signed files form an initial segment of
the manifest file followed by the distributables in input order - so no
artifact after the failing one is ever signed. -/
theorem sign_failure_aborts (env : Env) (o : CreateMetadataOptions) (f : String)
    (hf : f ∈ signedFiles (createReleaseMetadata env o).1)
    (hexit : env.signExit f ≠ some 0) :
    (createReleaseMetadata env o).2 =
      Except.error (signFailErr o.password (env.signExit f)) ∧
    Event.errMsg ("Error signing file: " ++ basename f) ∈ (createReleaseMetadata env o).1 ∧
    (∃ l, signedFiles (createReleaseMetadata env o).1 = l ++ [f] ∧
      ∀ g ∈ l, env.signExit g = some 0) ∧
    (∃ rest, signedFiles (createReleaseMetadata env o).1 ++ rest =
      joinPath (o.outputDir.getD ".") ("latest-" ++ o.platform.getD "mac" ++ ".yml")
        :: o.distributables) := by
  rcases hp : preparePhase env o with ⟨pevs, pr⟩
  have hps : signedFiles pevs = [] := by
    have := signedFiles_preparePhase env o
    rw [hp] at this
    exact this
  cases pr with
  | error e =>
    rw [create_err_of_prepare hp] at hf
    rw [show signedFiles pevs = [] from hps] at hf
    cases hf
  | ok pair =>
    rcases pair with ⟨man, mf⟩
    have hmf : mf = joinPath (o.outputDir.getD ".")
        ("latest-" ++ o.platform.getD "mac" ++ ".yml") :=
      (prepare_ok (show (preparePhase env o).2 = Except.ok (man, mf) by rw [hp])).1
    rcases create_of_prepare_ok hp with ⟨e2, hse, hc⟩ | ⟨hse, hc⟩
    · -- the signing phase rejected
      rcases signPhase_spec env o mf with ⟨hok, hsf, hall⟩ |
        ⟨pre, fx, suff, hsplit, hsf, hpre, hfx, herr, hmem⟩
      · exact absurd (hok.symm.trans hse) (by simp)
      · have htr : (createReleaseMetadata env o).1 = pevs ++ (signPhase env o mf).1 := by
          rw [hc]
        have hsigned : signedFiles (createReleaseMetadata env o).1 = pre ++ [fx] := by
          rw [htr, signedFiles_append, hps, hsf]
          rfl
        have hffx : f = fx := by
          rw [hsigned] at hf
          rcases List.mem_append.1 hf with hin | hin
          · exact absurd (hpre f hin) hexit
          · simpa using hin
        subst hffx
        refine ⟨?_, ?_, ⟨pre, hsigned, hpre⟩, ⟨suff, ?_⟩⟩
        · rw [hc]
          have : e2 = signFailErr o.password (env.signExit f) := by
            have := hse.symm.trans herr
            simpa using this
          rw [this]
        · rw [htr]
          exact List.mem_append_right _ hmem
        · rw [hsigned, ← hmf, List.append_assoc]
          simpa using hsplit.symm
    · -- the signing phase succeeded: every signed file exited 0
      rcases signPhase_spec env o mf with ⟨hok, hsf, hall⟩ |
        ⟨pre, fx, suff, hsplit, hsf, hpre, hfx, herr, hmem⟩
      · exfalso
        have htr : (createReleaseMetadata env o).1 = pevs ++ ((signPhase env o mf).1 ++
            vlog (o.verbose.getD false) "Release metadata creation completed successfully!") := by
          rw [hc, List.append_assoc]
        rw [htr, signedFiles_append, hps, signedFiles_append, hsf, signedFiles_vlog] at hf
        simp at hf
        exact hexit (hall f (by simpa using hf))
      · exact absurd (herr.symm.trans hse) (by simp)

/-- C2 counterexample: two runs whose only difference is the failing
artifact's name (`alpha.zip` vs `beta.dmg`) reject with the *identical*
error text, which contains neither name - so the name of the file being
signed at the time of the failure is not identifiable from the rejection's
error text (it appears only in the console-error diagnostics). -/
theorem sign_failure_text_lacks_filename :
    (createReleaseMetadata envFailA optsAlpha).2 =
      Except.error "Failed to sign file with minisign: minisign process exited with code 1" ∧
    (createReleaseMetadata envFailB optsBeta).2 =
      Except.error "Failed to sign file with minisign: minisign process exited with code 1" ∧
    isInfixB "alpha.zip".data
      "Failed to sign file with minisign: minisign process exited with code 1".data = false ∧
    isInfixB "beta.dmg".data
      "Failed to sign file with minisign: minisign process exited with code 1".data = false :=
  ⟨rfl, rfl, by decide, by decide⟩

/-- C2 instance: the failing-artifact run, exercising the amended
theorem's hypotheses at an explicit input. -/
theorem sign_failure_aborts_inst :
    "alpha.zip" ∈ signedFiles (createReleaseMetadata envFailA optsAlpha).1 ∧
    envFailA.signExit "alpha.zip" ≠ some 0 ∧
    (createReleaseMetadata envFailA optsAlpha).2 =
      Except.error (signFailErr optsAlpha.password (envFailA.signExit "alpha.zip")) ∧
    Event.errMsg ("Error signing file: " ++ basename "alpha.zip") ∈
      (createReleaseMetadata envFailA optsAlpha).1 :=
  ⟨by decide, by decide,
   (sign_failure_aborts envFailA optsAlpha "alpha.zip" (by decide) (by decide)).1,
   (sign_failure_aborts envFailA optsAlpha "alpha.zip" (by decide) (by decide)).2.1⟩

/-- C3 (amended): with a *non-empty* password, `signFile` spawns the
signer exactly once with the child's standard input piped, writes the
secret followed by a newline to it and closes the stream; under either
strategy there is exactly one spawn per invocation, exit status 0
resolves to success, and any other exit (including abnormal termination,
`code = null`) rejects with a failure that carries the process's exit
diagnostic and forwards it to the error stream together with the child's
own inherited diagnostic output. -/
theorem explicit_password_signing_spec (env : Env) (f k s : String) (hs : s ≠ "") :
    spawnArgs (signFile env f k (some s)).1 =
      [(f, k, Strategy.explicitPw, some (s ++ "\n"))] ∧
    (∀ pw : Option String, spawnArgs (signFile env f k pw).1 =
      [(f, k, stratOf pw, stdinOf pw)]) ∧
    (∀ pw : Option String,
      (env.signExit f = some 0 → (signFile env f k pw).2 = Except.ok ()) ∧
      (env.signExit f ≠ some 0 →
        (signFile env f k pw).2 = Except.error (signFailErr pw (env.signExit f)) ∧
        Event.errMsg (exitErr pw (env.signExit f)) ∈ (signFile env f k pw).1 ∧
        Event.childOut (env.childDiag f) ∈ (signFile env f k pw).1)) := by
  have hone : ∀ pw : Option String, spawnArgs (signFile env f k pw).1 =
      [(f, k, stratOf pw, stdinOf pw)] := by
    intro pw
    by_cases hpw : optTruthy pw = true <;>
      simp only [signFile, stratOf, stdinOf, hpw, if_true, Bool.false_eq_true, if_false] <;>
      split <;> rfl
  have ht : optTruthy (some s) = true := by simp [optTruthy, strTruthy, hs]
  refine ⟨?_, hone, ?_⟩
  · rw [hone (some s)]
    simp [stratOf, stdinOf, ht]
  · intro pw
    exact ⟨fun h0 => (signFile_ok_iff env f k pw).2 h0,
      fun hne => ⟨(signFile_error env f k pw hne).1,
        (signFile_error env f k pw hne).2.2.1,
        (signFile_error env f k pw hne).2.2.2⟩⟩

/-- C3 counterexample: the password `some ""` is a supplied (non-absent)
credential, yet the signer is spawned with the interactive strategy (all
streams inherited) and nothing is written to its standard input -
refuting the claim that every non-absent password uses the piped-input
strategy. -/
theorem empty_password_spawns_interactive_cex :
    spawnArgs (signFile envOkA "file.zip" "sec.key" (some "")).1 =
      [("file.zip", "sec.key", Strategy.interactive, none)] := rfl

/-- C3 instance: a concrete non-empty password, exercising the amended
theorem's hypothesis. -/
theorem explicit_password_signing_spec_inst :
    spawnArgs (signFile envOkA "file.zip" "sec.key" (some "pw")).1 =
      [("file.zip", "sec.key", Strategy.explicitPw, some ("pw" ++ "\n"))] :=
  (explicit_password_signing_spec envOkA "file.zip" "sec.key" "pw" (by decide)).1

/-! ## Password-truthiness congruence -/

theorem signFile_untruthy (env : Env) (f k : String) {pw : Option String}
    (h : optTruthy pw = false) : signFile env f k pw = signFile env f k none := by
  have hn : optTruthy (none : Option String) = false := rfl
  simp [signFile, signFailErr, exitErr, codeText, h, hn]

theorem signAll_untruthy (env : Env) (k : String) {pw : Option String}
    (h : optTruthy pw = false) (v : Bool) (t : Nat) :
    ∀ (i : Nat) (list : List String),
    signAll env k pw v t i list = signAll env k none v t i list := by
  intro i list
  induction list generalizing i with
  | nil => rfl
  | cons fp rest ih =>
    unfold signAll
    rw [signFile_untruthy env fp k h]
    rcases hsf : signFile env fp k none with ⟨sevs, sr⟩
    cases sr with
    | error e => rfl
    | ok u =>
      simp only []
      rw [ih (i + 1)]

theorem signPhase_untruthy (env : Env) (o : CreateMetadataOptions)
    {pw : Option String} (h : optTruthy pw = false) (mf : String) :
    signPhase env { o with password := pw } mf =
      signPhase env { o with password := none } mf := by
  simp only [signPhase]
  rw [signFile_untruthy env mf o.secretKeyPath h,
    signAll_untruthy env o.secretKeyPath h (o.verbose.getD false)
      o.distributables.length 0 o.distributables, h,
    show optTruthy (none : Option String) = false from rfl]

theorem mem_create {env : Env} {o : CreateMetadataOptions} {e : Event}
    (h : e ∈ (createReleaseMetadata env o).1) :
    e ∈ (preparePhase env o).1 ∨
    (∃ mf, (∃ pevs man, preparePhase env o = (pevs, Except.ok (man, mf))) ∧
      e ∈ (signPhase env o mf).1) ∨
    (∃ s, e = Event.logMsg s) := by
  rcases hp : preparePhase env o with ⟨pevs, pr⟩
  cases pr with
  | error e2 =>
    rw [create_err_of_prepare hp] at h
    left
    simpa using h
  | ok pair =>
    rcases pair with ⟨man, mf⟩
    rcases create_of_prepare_ok hp with ⟨e2, hse, hc⟩ | ⟨hse, hc⟩ <;>
      rw [hc] at h <;>
      simp only [List.mem_append] at h
    · rcases h with h | h
      · left
        simpa using h
      · exact Or.inr (Or.inl ⟨mf, ⟨pevs, man, rfl⟩, h⟩)
    · rcases h with (h | h) | h
      · left
        simpa using h
      · exact Or.inr (Or.inl ⟨mf, ⟨pevs, man, rfl⟩, h⟩)
      · exact Or.inr (Or.inr ⟨_, mem_vlog h⟩)

/-- C10: supplying the empty string as password behaves exactly like
supplying no password at all (identical trace and result); whenever the
password option is not truthy every signer spawn of the run uses the
interactive strategy with nothing written to the child's input; and a
spawn with the explicit (piped-input) strategy can only occur when the
password is a present, non-empty string. -/
theorem empty_password_acts_as_absent (env : Env) (o : CreateMetadataOptions) :
    createReleaseMetadata env { o with password := some "" } =
      createReleaseMetadata env { o with password := none } ∧
    (optTruthy o.password = false →
      ∀ f k st d, Event.spawnSign f k st d ∈ (createReleaseMetadata env o).1 →
        st = Strategy.interactive ∧ d = none) ∧
    (∀ f k st d, Event.spawnSign f k st d ∈ (createReleaseMetadata env o).1 →
      st = Strategy.explicitPw → optTruthy o.password = true) := by
  have hspawn : ∀ f k st d, Event.spawnSign f k st d ∈ (createReleaseMetadata env o).1 →
      st = stratOf o.password ∧ d = stdinOf o.password := by
    intro f k st d hm
    rcases mem_create hm with hm | ⟨mf, -, hm⟩ | ⟨s, hm⟩
    · rcases mem_preparePhase hm with
        ⟨s, hh⟩ | ⟨p2, hh, -⟩ | ⟨p2, hh⟩ | ⟨d2, hh⟩ | ⟨p2, m2, hh⟩ <;> simp at hh
    · rcases mem_signPhase hm with ⟨s, hh⟩ | ⟨s, hh⟩ | ⟨f2, hh⟩ | ⟨s, hh⟩
      · simp at hh
      · simp at hh
      · simp only [Event.spawnSign.injEq] at hh
        exact ⟨hh.2.2.1, hh.2.2.2⟩
      · simp at hh
    · simp at hm
  refine ⟨?_, ?_, ?_⟩
  · have hfact : optTruthy (some "") = false := rfl
    have hpre : preparePhase env { o with password := some "" } =
        preparePhase env { o with password := none } := rfl
    unfold createReleaseMetadata
    rw [hpre]
    simp only [signPhase_untruthy env o hfact]
  · intro hpw f k st d hm
    obtain ⟨hst, hd⟩ := hspawn f k st d hm
    rw [hst, hd]
    simp [stratOf, stdinOf, hpw]
  · intro f k st d hm hst
    obtain ⟨hst2, -⟩ := hspawn f k st d hm
    rw [hst] at hst2
    by_cases hpw : optTruthy o.password = true
    · exact hpw
    · rw [stratOf, if_neg hpw] at hst2
      cases hst2

/-- C10 instance: the empty-string password run is extensionally identical
to the absent-password run, and its spawns are interactive. -/
theorem empty_password_acts_as_absent_inst :
    createReleaseMetadata envOkA { optsAlpha with password := some "" } =
      createReleaseMetadata envOkA { optsAlpha with password := none } ∧
    (Strategy.interactive = Strategy.interactive ∧ (none : Option String) = none) :=
  ⟨(empty_password_acts_as_absent envOkA optsAlpha).1,
   (empty_password_acts_as_absent envOkA optsAlpha).2.1 rfl "latest-mac.yml" "sec.key"
     Strategy.interactive none (by decide)⟩

/-- C7: architecture extraction agrees with the spec's token-group
description on every filename (case-insensitive substring matching, first
group in {arm64, aarch64} then {x64, x86_64, amd64} then
{x86, ia32, i386} then {universal} wins, otherwise absent); it never
raises (total function into `Option`), and the named examples hold. -/
theorem extract_arch_spec :
    (∀ f, extractArchFromFilename f = archFromGroups f) ∧
    extractArchFromFilename "app-ARM64.zip" = some "arm64" ∧
    extractArchFromFilename "app-arm64.zip" = some "arm64" ∧
    extractArchFromFilename "app.zip" = none := by
  refine ⟨?_, by decide, by decide, by decide⟩
  intro f
  simp only [extractArchFromFilename, archFromGroups, archGroups, List.find?,
    List.any_cons, List.any_nil, Bool.or_false, Bool.or_assoc]
  cases g1 : (containsCI f "arm64" || containsCI f "aarch64") <;>
    cases g2 : (containsCI f "x64" || (containsCI f "x86_64" || containsCI f "amd64")) <;>
    cases g3 : (containsCI f "x86" || (containsCI f "ia32" || containsCI f "i386")) <;>
    cases g4 : containsCI f "universal" <;>
    simp [g1, g2, g3, g4]

/-! ## Version-pattern shape lemmas -/

theorem matchCoreFull_shape {s g : List Char} (h : matchCoreFull s = some g) :
    ∃ d1 d2 d3 pre, g = d1 ++ '.' :: (d2 ++ '.' :: (d3 ++ pre)) ∧
      d1 ≠ [] ∧ d1.all Char.isDigit = true ∧
      d2 ≠ [] ∧ d2.all Char.isDigit = true ∧
      d3 ≠ [] ∧ d3.all Char.isDigit = true ∧
      (pre = [] ∨ ∃ p2, pre = '-' :: p2 ∧ p2 ≠ [] ∧ p2.all isPreChar = true) := by
  simp only [matchCoreFull] at h
  split at h
  · cases h
  · split at h
    · split at h
      · cases h
      · split at h
        · split at h
          · cases h
          · split at h
            · split at h
              · exact ⟨_, _, _, _, (Option.some.inj h).symm, by simp_all, List.all_takeWhile ..,
                  by simp_all, List.all_takeWhile .., by simp_all, List.all_takeWhile ..,
                  Or.inl rfl⟩
              · exact ⟨_, _, _, _, (Option.some.inj h).symm, by simp_all, List.all_takeWhile ..,
                  by simp_all, List.all_takeWhile .., by simp_all, List.all_takeWhile ..,
                  Or.inr ⟨_, rfl, by simp_all, List.all_takeWhile ..⟩⟩
            · exact ⟨_, _, _, _, (Option.some.inj h).symm, by simp_all, List.all_takeWhile ..,
                by simp_all, List.all_takeWhile .., by simp_all, List.all_takeWhile ..,
                Or.inl rfl⟩
        · cases h
    · cases h

theorem matchCoreSimple_shape {s g : List Char} (h : matchCoreSimple s = some g) :
    ∃ d1 d2 d3, g = d1 ++ '.' :: (d2 ++ '.' :: d3) ∧
      d1 ≠ [] ∧ d1.all Char.isDigit = true ∧
      d2 ≠ [] ∧ d2.all Char.isDigit = true ∧
      d3 ≠ [] ∧ d3.all Char.isDigit = true := by
  simp only [matchCoreSimple] at h
  split at h
  · cases h
  · split at h
    · split at h
      · cases h
      · split at h
        · split at h
          · cases h
          · exact ⟨_, _, _, (Option.some.inj h).symm, by simp_all, List.all_takeWhile ..,
              by simp_all, List.all_takeWhile .., by simp_all, List.all_takeWhile ..⟩
        · cases h
    · cases h

theorem findVersionAux_core {core : List Char → Option (List Char)} :
    ∀ {l g : List Char}, findVersionAux core l = some g → ∃ s, core s = some g := by
  intro l
  induction l with
  | nil => intro g h; cases h
  | cons c rest ih =>
    intro g h
    unfold findVersionAux at h
    split at h
    · rename_i g0 heq
      have heq2 : (if (c == 'v') = true then core rest else core (c :: rest)) = some g :=
        heq.trans h
      by_cases hv : (c == 'v') = true
      · rw [if_pos hv] at heq2
        exact ⟨rest, heq2⟩
      · rw [if_neg hv] at heq2
        exact ⟨c :: rest, heq2⟩
    · exact ih h

/-- C6: version extraction strips the extension and searches for the
semantic-version pattern, preferring the prerelease-capturing variant
(witnessed by the `-beta.1` example); the named examples hold, and every
returned version has the shape `<digits>.<digits>.<digits>` optionally
followed by `-<alphanumerics and dots>`. -/
theorem extract_version_spec :
    extractVersionFromFilename "app-v1.2.3.dmg" = some "1.2.3" ∧
    extractVersionFromFilename "app-1.2.3-beta.1.dmg" = some "1.2.3-beta.1" ∧
    extractVersionFromFilename "app.dmg" = none ∧
    (∀ f v, extractVersionFromFilename f = some v →
      ∃ d1 d2 d3 pre, v.data = d1 ++ '.' :: (d2 ++ '.' :: (d3 ++ pre)) ∧
        d1 ≠ [] ∧ d1.all Char.isDigit = true ∧
        d2 ≠ [] ∧ d2.all Char.isDigit = true ∧
        d3 ≠ [] ∧ d3.all Char.isDigit = true ∧
        (pre = [] ∨ ∃ p2, pre = '-' :: p2 ∧ p2 ≠ [] ∧ p2.all isPreChar = true)) := by
  refine ⟨by decide, by decide, by decide, ?_⟩
  intro f v h
  simp only [extractVersionFromFilename] at h
  split at h
  · rename_i g heq
    obtain rfl : v = String.mk g := (Option.some.inj h).symm
    obtain ⟨s, hcore⟩ := findVersionAux_core heq
    exact matchCoreFull_shape hcore
  · rcases hfv : findVersionAux matchCoreSimple (stripExt f).data with _ | g
    · rw [hfv] at h
      cases h
    · rw [hfv] at h
      obtain rfl : v = String.mk g := by simpa using h.symm
      obtain ⟨s, hcore⟩ := findVersionAux_core hfv
      obtain ⟨d1, d2, d3, hg, h1, h2, h3, h4, h5, h6⟩ := matchCoreSimple_shape hcore
      exact ⟨d1, d2, d3, [], by simpa using hg, h1, h2, h3, h4, h5, h6, Or.inl rfl⟩

/-- C6 instance: the prerelease example, exercising the shape clause at a
concrete extracted version. -/
theorem extract_version_spec_inst :
    ∃ d1 d2 d3 pre, ("1.2.3-beta.1" : String).data =
        d1 ++ '.' :: (d2 ++ '.' :: (d3 ++ pre)) ∧
      d1 ≠ [] ∧ d1.all Char.isDigit = true ∧
      d2 ≠ [] ∧ d2.all Char.isDigit = true ∧
      d3 ≠ [] ∧ d3.all Char.isDigit = true ∧
      (pre = [] ∨ ∃ p2, pre = '-' :: p2 ∧ p2 ≠ [] ∧ p2.all isPreChar = true) :=
  extract_version_spec.2.2.2 "app-1.2.3-beta.1.dmg" "1.2.3-beta.1" (by decide)
